import Mathlib

set_option maxRecDepth 2000

/-!
Verification of the Cetus rebalance bot's math core against its specification.

The TypeScript source is shallowly embedded:
* BN (bn.js) values are arbitrary-precision integers (`Nat`/`Int`).
  The bn.js operations that can throw are modelled with `Option`:
  - division asserts a nonzero divisor        (`bnDiv`),
  - a right shift asserts a nonnegative value (`bnShrn`),
  - `toNumber` asserts the value fits in 53 bits (`bnToNumber`),
  - the `BN(number)` constructor likewise asserts its argument is below 2^53.
* JS `Math.floor(a / b)` on integers is `Int.fdiv`, `Math.ceil` its ceiling analogue.
* fallible functions return `Option`; a thrown exception is `none`.
-/

/-- bn.js division: `divmod` asserts the divisor is nonzero; the quotient is
truncated toward zero. -/
def bnDiv (a b : Int) : Option Int :=
  if b = 0 then none else some (a.tdiv b)

/-- bn.js right shift (`shrn`/`ishrn`): asserts the shifted value is nonnegative. -/
def bnShrn (a : Int) (n : Nat) : Option Int :=
  if a < 0 then none else some (a.tdiv (2 ^ n))

/-- bn.js `toNumber`: returns the value when it fits in 53 bits
(word length at most 2, or length 3 with top word 1), otherwise asserts
with Number can only safely store up to 53 bits. For a nonnegative value
this is defined exactly when the value is below 2^53. -/
def bnToNumber (v : Nat) : Option Nat :=
  if v < 2 ^ 53 then some v else none

namespace TickMath

def MAX_TICK : Int := 443636
def MIN_TICK : Int := -443636

/-- The magic constant table from src/math/tick.ts: entry i is the pair
(2^i, a 128-bit fixed-point approximation of (1/sqrt(1.0001))^(2^i)). -/
def MAGIC_CONSTANTS : List (Nat × Nat) :=
  [(0x1,     0xfffcb933bd6fad37aa2d162d1a594001),
   (0x2,     0xfff97272373d413259a46990580e213a),
   (0x4,     0xfff2e50f5f656932ef12357cf3c7fdcc),
   (0x8,     0xffe5caca7e10e4e61c3624eaa0941cd0),
   (0x10,    0xffcb9843d60f6159c9db58835c926644),
   (0x20,    0xff973b41fa98c081472e6896dfb254c0),
   (0x40,    0xff2ea16466c96a3843ec78b326b52861),
   (0x80,    0xfe5dee046a99a2a811c461f1969c3053),
   (0x100,   0xfcbe86c7900a88aedcffc83b479aa3a4),
   (0x200,   0xf987a7253ac413176f2b074cf7815e54),
   (0x400,   0xf3392b0822b70005940c7a398e4b70f3),
   (0x800,   0xe7159475a2c29b7443b29c7fa6e889d9),
   (0x1000,  0xd097f3bdfd2022b8845ad8f792aa5825),
   (0x2000,  0xa9f746462d870fdf8a65dc1f90e061e5),
   (0x4000,  0x70d869a156d2a1b890bb3df62baf32f7),
   (0x8000,  0x31be135f97d08fd981231505542fcfa6),
   (0x10000, 0x9aa508b5b7a84e1c677de54f3e99bc9),
   (0x20000, 0x5d6af8dedb81196699c329225ee604),
   (0x40000, 0x2216e584f5fa1ea926041bedfe98),
   (0x80000, 0x48a170391f7dc42444e8fa2)]

/-- 2^128, representing 1.0 in Q128 format (Q128_ONE in the source). -/
def Q128_ONE : Nat := 2 ^ 128

/-- Maximum uint256, used for the inversion of the ratio (MAX_UINT256). -/
def MAX_UINT256 : Nat := 2 ^ 256 - 1

/-- One loop iteration of tickIndexToSqrtPriceX64: multiply the accumulator by
the magic constant for each set bit of absTick and shift right by 128. -/
def ratioLoop (absTick : Nat) : List (Nat × Nat) → Nat → Nat
  | [], acc => acc
  | (bit, c) :: rest, acc =>
      ratioLoop absTick rest (if absTick &&& bit ≠ 0 then acc * c / 2 ^ 128 else acc)

/-- The Q128 ratio accumulated for a given absTick: the initial value handles
bit 0 (the first table entry), the loop runs over entries 1..19. -/
def ratioOfAbsTick (absTick : Nat) : Nat :=
  ratioLoop absTick (MAGIC_CONSTANTS.drop 1)
    (if absTick &&& 0x1 ≠ 0 then 0xfffcb933bd6fad37aa2d162d1a594001 else Q128_ONE)

/-- TickMath.tickIndexToSqrtPriceX64 from src/math/tick.ts: Q64.64 sqrt price
for a tick index. Throws (none) when the tick is out of [MIN_TICK, MAX_TICK];
for positive ticks the accumulated ratio is inverted through MAX_UINT256;
finally the Q128 ratio is shifted down to Q64.64. -/
def tickIndexToSqrtPriceX64 (tickIndex : Int) : Option Nat :=
  if tickIndex < MIN_TICK ∨ MAX_TICK < tickIndex then none
  else
    let ratio := ratioOfAbsTick tickIndex.natAbs
    let ratio := if 0 < tickIndex then MAX_UINT256 / ratio else ratio
    some (ratio / 2 ^ 64)

/-- TickMath.getPrevInitializableTickIndex: Math.floor(tickIndex / tickSpacing) * tickSpacing. -/
def getPrevInitializableTickIndex (tickIndex tickSpacing : Int) : Int :=
  tickIndex.fdiv tickSpacing * tickSpacing

/-- TickMath.getNextInitializableTickIndex: Math.ceil(tickIndex / tickSpacing) * tickSpacing. -/
def getNextInitializableTickIndex (tickIndex tickSpacing : Int) : Int :=
  -((-tickIndex).fdiv tickSpacing) * tickSpacing

end TickMath

/-- C10: at tick zero the conversion is exact: tickIndexToSqrtPriceX64 0 returns
exactly 2^64, the Q64.64 representation of sqrt(1.0001^0) = 1. -/
theorem c10_tick_zero_sqrt_price_exact :
    TickMath.tickIndexToSqrtPriceX64 0 = some (2 ^ 64) := by decide

/-- C3: the round trip crashes instead of returning a tick. At tick 0 the
forward conversion yields 2^64; sqrtPriceX64ToTickIndex immediately calls
BN.toNumber on that value, and bn.js toNumber asserts for values with more
than 53 bits, so the call throws rather than returning a value within 1 of 0. -/
theorem c3_round_trip_crashes_at_tick_zero :
    TickMath.tickIndexToSqrtPriceX64 0 = some (2 ^ 64) ∧
      bnToNumber (2 ^ 64) = none := by
  constructor
  · decide
  · decide

/-- Coin amounts for the two tokens of a pool (src/math/clmm.ts). -/
structure CoinAmounts where
  coinA : Int
  coinB : Int
deriving DecidableEq, Repr

namespace ClmmPoolUtil

/-- ClmmPoolUtil.getAmountAFromLiquidity:
numerator = liquidity * (sqrtPriceUpper - sqrtPriceLower),
denominator = (sqrtPriceUpper * sqrtPriceLower) >> 64,
then ceiling division when roundUp, truncating division otherwise. -/
def getAmountAFromLiquidity (liquidity sqrtPriceLower sqrtPriceUpper : Int)
    (roundUp : Bool) : Option Int := do
  let numerator := liquidity * (sqrtPriceUpper - sqrtPriceLower)
  let denominator ← bnShrn (sqrtPriceUpper * sqrtPriceLower) 64
  if roundUp then bnDiv (numerator + (denominator - 1)) denominator
  else bnDiv numerator denominator

/-- ClmmPoolUtil.getAmountBFromLiquidity:
amount = (liquidity * (sqrtPriceUpper - sqrtPriceLower)) >> 64, plus 1 when roundUp. -/
def getAmountBFromLiquidity (liquidity sqrtPriceLower sqrtPriceUpper : Int)
    (roundUp : Bool) : Option Int := do
  let amount ← bnShrn (liquidity * (sqrtPriceUpper - sqrtPriceLower)) 64
  pure (if roundUp then amount + 1 else amount)

/-- ClmmPoolUtil.getCoinAmountFromLiquidity: three-way split on where
curSqrtPrice falls relative to [lowerSqrtPrice, upperSqrtPrice]. -/
def getCoinAmountFromLiquidity (liquidity curSqrtPrice lowerSqrtPrice upperSqrtPrice : Int)
    (roundUp : Bool) : Option CoinAmounts :=
  if curSqrtPrice < lowerSqrtPrice then do
    let amountA ← getAmountAFromLiquidity liquidity lowerSqrtPrice upperSqrtPrice roundUp
    pure ⟨amountA, 0⟩
  else if upperSqrtPrice ≤ curSqrtPrice then do
    let amountB ← getAmountBFromLiquidity liquidity lowerSqrtPrice upperSqrtPrice roundUp
    pure ⟨0, amountB⟩
  else do
    let amountA ← getAmountAFromLiquidity liquidity curSqrtPrice upperSqrtPrice roundUp
    let amountB ← getAmountBFromLiquidity liquidity lowerSqrtPrice curSqrtPrice roundUp
    pure ⟨amountA, amountB⟩

/-- The private ClmmPoolUtil.tickIndexToSqrtPriceX64 of src/math/clmm.ts.
The source computes Math.floor(Math.sqrt(Math.pow(1.0001, tickIndex)) * 2^64)
in double-precision floats and passes the result to the BN constructor; bn.js
asserts that a number handed to the constructor is below 2^53, so larger
results throw. The real-valued expression floor(2^64 * sqrt(1.0001^t)) is
modelled exactly here via Nat.sqrt; every use below is robust to the
difference between the exact value and its double-precision evaluation. -/
def tickIndexToSqrtPriceX64 (tickIndex : Int) : Option Nat :=
  let v :=
    if 0 ≤ tickIndex then
      Nat.sqrt (2 ^ 128 * 10001 ^ tickIndex.natAbs * 10000 ^ tickIndex.natAbs) /
        10000 ^ tickIndex.natAbs
    else
      Nat.sqrt (2 ^ 128 * 10001 ^ tickIndex.natAbs * 10000 ^ tickIndex.natAbs) /
        10001 ^ tickIndex.natAbs
  if v < 2 ^ 53 then some v else none

/-- ClmmPoolUtil.estimateLiquidityFromcoinAmounts: converts the new range's
bounds with the private float-based conversion, then splits on where
curSqrtPrice falls; in the mixed case the minimum of the two per-token
liquidities is the binding constraint. -/
def estimateLiquidityFromcoinAmounts (curSqrtPrice : Int) (tickLower tickUpper : Int)
    (tokenAmounts : CoinAmounts) : Option Int := do
  let lowerSqrtPrice ← tickIndexToSqrtPriceX64 tickLower
  let upperSqrtPrice ← tickIndexToSqrtPriceX64 tickUpper
  let lowerSqrtPrice : Int := lowerSqrtPrice
  let upperSqrtPrice : Int := upperSqrtPrice
  if curSqrtPrice < lowerSqrtPrice then do
    let s ← bnShrn (lowerSqrtPrice * upperSqrtPrice) 64
    bnDiv (tokenAmounts.coinA * s) (upperSqrtPrice - lowerSqrtPrice)
  else if upperSqrtPrice ≤ curSqrtPrice then
    bnDiv (tokenAmounts.coinB * 2 ^ 64) (upperSqrtPrice - lowerSqrtPrice)
  else do
    let s ← bnShrn (curSqrtPrice * upperSqrtPrice) 64
    let liquidityA ← bnDiv (tokenAmounts.coinA * s) (upperSqrtPrice - curSqrtPrice)
    let liquidityB ← bnDiv (tokenAmounts.coinB * 2 ^ 64) (curSqrtPrice - lowerSqrtPrice)
    pure (if liquidityA < liquidityB then liquidityA else liquidityB)

end ClmmPoolUtil

/-- Percentage from src/math/percentage.ts: an exact numerator/denominator
fraction. The bot always constructs it with denominator 10000; bn.js would
throw on a zero denominator, so the slippage theorems below assume a
positive denominator. -/
structure Percentage where
  numerator : Int
  denominator : Int
deriving DecidableEq, Repr

namespace Percentage

/-- Percentage.apply: value * numerator / denominator (bn.js division truncates
toward zero), plus 1 when roundUp is set and the remainder is nonzero. -/
def apply (p : Percentage) (value : Int) (roundUp : Bool) : Int :=
  let result := (value * p.numerator).tdiv p.denominator
  if roundUp ∧ 0 < (value * p.numerator).tmod p.denominator then result + 1
  else result

/-- Percentage.addSlippage: value + apply(value). -/
def addSlippage (p : Percentage) (value : Int) (roundUp : Bool) : Int :=
  value + p.apply value roundUp

/-- Percentage.subtractSlippage: value - apply(value). -/
def subtractSlippage (p : Percentage) (value : Int) (roundUp : Bool) : Int :=
  value - p.apply value roundUp

end Percentage

/-- Slippage-adjusted bounds for the two coins (src/math/position.ts). -/
structure AdjustedCoinAmounts where
  tokenMaxA : Int
  tokenMaxB : Int
  tokenMinA : Int
  tokenMinB : Int
deriving DecidableEq, Repr

/-- adjustForCoinSlippage from src/math/position.ts: maxima use addSlippage
with roundUp, minima use subtractSlippage with the negated flag. -/
def adjustForCoinSlippage (coinAmounts : CoinAmounts) (slippageTolerance : Percentage)
    (roundUp : Bool) : AdjustedCoinAmounts :=
  { tokenMaxA := slippageTolerance.addSlippage coinAmounts.coinA roundUp
    tokenMaxB := slippageTolerance.addSlippage coinAmounts.coinB roundUp
    tokenMinA := slippageTolerance.subtractSlippage coinAmounts.coinA (!roundUp)
    tokenMinB := slippageTolerance.subtractSlippage coinAmounts.coinB (!roundUp) }

/-- CetusRebalanceBot.calculateNewTickRange from src/index.ts: half the original
width on each side of the current tick, aligned down (lower) and up (upper) to
the spacing grid; the alignment is applied a second time by the explicit
floor/ceil lines of the source. -/
def calculateNewTickRange (currentTick tickSpacing originalRangeWidth : Int) :
    Int × Int :=
  let halfRange := originalRangeWidth.fdiv 2
  let lowerTick := TickMath.getPrevInitializableTickIndex (currentTick - halfRange) tickSpacing
  let upperTick := TickMath.getNextInitializableTickIndex (currentTick + halfRange) tickSpacing
  (lowerTick.fdiv tickSpacing * tickSpacing,
   -((-upperTick).fdiv tickSpacing) * tickSpacing)

/-- The fields of a PositionInfo that feed the rebalance math (src/index.ts). -/
structure PositionInfo where
  tickLower : Int
  tickUpper : Int
  liquidity : Int
deriving DecidableEq, Repr

/-- The fields of a pool snapshot that feed the rebalance math. -/
structure PoolState where
  currentTick : Int
  tickSpacing : Int
  currentSqrtPrice : Int
deriving DecidableEq, Repr

/-- The delta_liquidity that rebalancePosition's step 4 (addLiquidityToPosition)
submits for the new position, as a function of the position and the pool state:
the new range comes from calculateNewTickRange on the original width, the coin
amounts from getCoinAmountFromLiquidity at the original liquidity (roundUp
false), and the submitted delta_liquidity is the value of
estimateLiquidityFromcoinAmounts on those amounts - not the original liquidity.
The slippage bounds (tokenMaxA/tokenMaxB) computed in between do not feed
delta_liquidity and cannot throw, so they are omitted. A thrown exception
anywhere in this chain is none. -/
def rebalanceDeltaLiquidity (position : PositionInfo) (pool : PoolState) :
    Option Int := do
  let originalRangeWidth := position.tickUpper - position.tickLower
  let r := calculateNewTickRange pool.currentTick pool.tickSpacing originalRangeWidth
  let lowerSqrtPrice ← TickMath.tickIndexToSqrtPriceX64 r.1
  let upperSqrtPrice ← TickMath.tickIndexToSqrtPriceX64 r.2
  let coinAmounts ← ClmmPoolUtil.getCoinAmountFromLiquidity position.liquidity
    pool.currentSqrtPrice lowerSqrtPrice upperSqrtPrice false
  ClmmPoolUtil.estimateLiquidityFromcoinAmounts pool.currentSqrtPrice r.1 r.2 coinAmounts

/-- A pool snapshot held by the cache; the payload stands for the full
SDK pool object, which the cache treats as opaque. -/
structure Pool where
  data : Nat
deriving DecidableEq, Repr

/-- The pool cache: poolId keyed entries of (pool, capture timestamp). -/
def PoolCache : Type := List (String × Pool × Nat)

/-- POOL_CACHE_TTL: 5 seconds in milliseconds. -/
def POOL_CACHE_TTL : Nat := 5000

/-- Lookup of this.poolCache.get(poolId). -/
def cacheLookup : PoolCache → String → Option (Pool × Nat)
  | [], _ => none
  | (k, e) :: rest, poolId => if k = poolId then some e else cacheLookup rest poolId

/-- this.poolCache.set(poolId, entry): replaces the entry wholesale when the
key is present, appends otherwise. -/
def cacheSet : PoolCache → String → Pool × Nat → PoolCache
  | [], poolId, e => [(poolId, e)]
  | (k, old) :: rest, poolId, e =>
      if k = poolId then (poolId, e) :: rest else (k, old) :: cacheSet rest poolId e

/-- The fetch-with-retry loop of getPoolWithCache: each list element is the
outcome of one sdk.Pool.getPool attempt (none is a thrown fetch). On the first
success the snapshot is cached with the current timestamp and returned; the
result also counts the fetches performed. Exhausting all attempts throws. -/
def fetchLoop (cache : PoolCache) (poolId : String) (now : Nat) :
    List (Option Pool) → Nat → Option Pool × PoolCache × Nat
  | [], fetchCount => (none, cache, fetchCount)
  | some pool :: _, fetchCount =>
      (some pool, cacheSet cache poolId (pool, now), fetchCount + 1)
  | none :: rest, fetchCount => fetchLoop cache poolId now rest (fetchCount + 1)

/-- getPoolWithCache from src/index.ts: serve the cached snapshot when its age
is below POOL_CACHE_TTL, otherwise run the fetch-with-retry loop. The attempts
list carries the outcomes the RPC would produce (maxRetries of them); the third
component of the result is the number of fetches performed. -/
def getPoolWithCache (cache : PoolCache) (poolId : String) (now : Nat)
    (attempts : List (Option Pool)) : Option Pool × PoolCache × Nat :=
  match cacheLookup cache poolId with
  | some (pool, timestamp) =>
      if now - timestamp < POOL_CACHE_TTL then (some pool, cache, 0)
      else fetchLoop cache poolId now attempts 0
  | none => fetchLoop cache poolId now attempts 0

/-! ### Grid alignment facts for calculateNewTickRange -/

theorem alignDown_le (a : Int) {s : Int} (hs : 0 < s) : a.fdiv s * s ≤ a := by
  have h := Int.fmod_add_fdiv a s
  have hm := Int.fmod_nonneg' a hs
  nlinarith [h, hm]

theorem lt_alignDown_add (a : Int) {s : Int} (hs : 0 < s) : a < a.fdiv s * s + s := by
  have h := Int.lt_fdiv_add_one_mul_self a hs
  nlinarith [h]

theorem le_alignUp (a : Int) {s : Int} (hs : 0 < s) : a ≤ -((-a).fdiv s) * s := by
  have h := alignDown_le (-a) hs
  nlinarith [h]

theorem alignUp_lt (a : Int) {s : Int} (hs : 0 < s) : -((-a).fdiv s) * s < a + s := by
  have h := lt_alignDown_add (-a) hs
  nlinarith [h]

/-- The double alignment in calculateNewTickRange is idempotent, so the result
is exactly the aligned-down lower bound and aligned-up upper bound. -/
theorem calculateNewTickRange_eq (c s w : Int) (hs : 0 < s) :
    calculateNewTickRange c s w =
      ((c - w.fdiv 2).fdiv s * s, -((-(c + w.fdiv 2)).fdiv s) * s) := by
  have hs0 : s ≠ 0 := ne_of_gt hs
  unfold calculateNewTickRange TickMath.getPrevInitializableTickIndex
    TickMath.getNextInitializableTickIndex
  dsimp only
  rw [Prod.mk.injEq]
  constructor
  · rw [Int.mul_fdiv_cancel _ hs0]
  · rw [show -(-((-(c + w.fdiv 2)).fdiv s) * s) = (-(c + w.fdiv 2)).fdiv s * s by ring,
      Int.mul_fdiv_cancel _ hs0]

/-- C2 counterexample: at currentTick 0, tickSpacing 1, originalRangeWidth 3,
the returned range is (-1, 1) of width 2, which is smaller than the original
width 3, refuting the claimed lower bound on the width. -/
theorem c2_counterexample :
    calculateNewTickRange 0 1 3 = (-1, 1) ∧
      ¬ (3 ≤ (calculateNewTickRange 0 1 3).2 - (calculateNewTickRange 0 1 3).1) := by
  constructor
  · decide
  · decide

/-- C2 amended: both bounds are multiples of tickSpacing, and the width lies
between 2*floor(originalRangeWidth/2) (one less than the original width for
odd widths) and 2*floor(originalRangeWidth/2) + 2*(tickSpacing - 1) (up to
one spacing may be added on each side, not in total). -/
theorem c2_amended (c s w : Int) (hs : 0 < s) (hw : 1 ≤ w) :
    s ∣ (calculateNewTickRange c s w).1 ∧ s ∣ (calculateNewTickRange c s w).2 ∧
      2 * w.fdiv 2 ≤ (calculateNewTickRange c s w).2 - (calculateNewTickRange c s w).1 ∧
      (calculateNewTickRange c s w).2 - (calculateNewTickRange c s w).1 ≤
        2 * w.fdiv 2 + 2 * (s - 1) := by
  rw [calculateNewTickRange_eq c s w hs]
  dsimp only
  refine ⟨dvd_mul_left s _, dvd_mul_left s _, ?_, ?_⟩
  · have h1 := alignDown_le (c - w.fdiv 2) hs
    have h2 := le_alignUp (c + w.fdiv 2) hs
    linarith
  · have h1 := lt_alignDown_add (c - w.fdiv 2) hs
    have h2 := alignUp_lt (c + w.fdiv 2) hs
    linarith

/-- C2 amended, witness at currentTick 7, tickSpacing 10, width 25. -/
theorem c2_amended_witness :
    (10 : Int) ∣ (calculateNewTickRange 7 10 25).1 ∧
      (10 : Int) ∣ (calculateNewTickRange 7 10 25).2 ∧
      2 * (25 : Int).fdiv 2 ≤ (calculateNewTickRange 7 10 25).2 -
        (calculateNewTickRange 7 10 25).1 ∧
      (calculateNewTickRange 7 10 25).2 - (calculateNewTickRange 7 10 25).1 ≤
        2 * (25 : Int).fdiv 2 + 2 * (10 - 1) :=
  c2_amended 7 10 25 (by decide) (by decide)

/-- C5 counterexample: at currentTick 0, tickSpacing 1, originalRangeWidth 1,
both bounds collapse to 0, refuting strict lowerTick < upperTick. -/
theorem c5_counterexample :
    calculateNewTickRange 0 1 1 = (0, 0) ∧
      ¬ ((calculateNewTickRange 0 1 1).1 < (calculateNewTickRange 0 1 1).2) := by
  constructor
  · decide
  · decide

/-- C5 amended: lowerTick ≤ upperTick always; the inequality is strict whenever
the original width is at least 2 (for width 1 with the current tick on the
grid, the two bounds coincide). -/
theorem c5_amended (c s w : Int) (hs : 0 < s) (hw : 1 ≤ w) :
    (calculateNewTickRange c s w).1 ≤ (calculateNewTickRange c s w).2 ∧
      (2 ≤ w → (calculateNewTickRange c s w).1 < (calculateNewTickRange c s w).2) := by
  rw [calculateNewTickRange_eq c s w hs]
  dsimp only
  have h0 : (0 : Int) ≤ w.fdiv 2 := Int.fdiv_nonneg (by omega) (by omega)
  have h1 := alignDown_le (c - w.fdiv 2) hs
  have h2 := le_alignUp (c + w.fdiv 2) hs
  constructor
  · linarith
  · intro h2w
    have hh : (1 : Int) ≤ w.fdiv 2 := by
      rw [Int.fdiv_eq_ediv _ (by omega)]
      omega
    linarith

/-- C5 amended, witness at currentTick 0, tickSpacing 1, width 3. -/
theorem c5_amended_witness :
    (calculateNewTickRange 0 1 3).1 ≤ (calculateNewTickRange 0 1 3).2 ∧
      (2 ≤ (3 : Int) → (calculateNewTickRange 0 1 3).1 < (calculateNewTickRange 0 1 3).2) :=
  c5_amended 0 1 3 (by decide) (by decide)

/-- C4 counterexample: with upperSqrtPrice = 2^64 not strictly greater than
lowerSqrtPrice = 2^65 (and the current price below the range),
getCoinAmountFromLiquidity returns a CoinAmounts result instead of failing:
no InvalidRange validation exists anywhere in the function. -/
theorem c4_counterexample :
    ClmmPoolUtil.getCoinAmountFromLiquidity 1 0 (2 ^ 65) (2 ^ 64) false =
      some ⟨0, 0⟩ := by decide

/-- C4 amended: getCoinAmountFromLiquidity performs no range validation at all.
Even with upperSqrtPrice ≤ lowerSqrtPrice, in the below-range branch it returns
a numeric CoinAmounts result for either rounding flag whenever the low-level BN
operations succeed (nonnegative product of the prices and a nonzero shifted
denominator); there is no InvalidRange error in the code. -/
theorem c4_amended (L cur lo up : Int) (r : Bool) (hul : up ≤ lo) (hcur : cur < lo)
    (hprod : 0 ≤ up * lo) (hden : (up * lo).tdiv (2 ^ 64) ≠ 0) :
    ∃ a : CoinAmounts,
      ClmmPoolUtil.getCoinAmountFromLiquidity L cur lo up r = some a := by
  have hns : ¬ (up * lo < 0) := not_lt.mpr hprod
  have hden' : (up * lo).tdiv 18446744073709551616 ≠ 0 := by
    simpa using hden
  unfold ClmmPoolUtil.getCoinAmountFromLiquidity ClmmPoolUtil.getAmountAFromLiquidity
    bnShrn bnDiv
  rw [if_pos hcur]
  cases r <;> simp [hns, hden']

/-- C4 amended, witness at the counterexample input. -/
theorem c4_amended_witness :
    ∃ a : CoinAmounts,
      ClmmPoolUtil.getCoinAmountFromLiquidity 1 0 (2 ^ 65) (2 ^ 64) false = some a :=
  c4_amended 1 0 (2 ^ 65) (2 ^ 64) false (by decide) (by decide) (by decide) (by decide)

/-! ### Slippage guard facts -/

/-- On a nonnegative product and positive denominator, Percentage.apply with
roundUp is exact ceiling division. -/
theorem Percentage_apply_true_eq (n d v : Int) (hx : 0 ≤ v * n) (hd : 0 < d) :
    (Percentage.mk n d).apply v true = (v * n + (d - 1)) / d := by
  unfold Percentage.apply
  dsimp only
  rw [Int.tdiv_eq_ediv hx hd.le, Int.tmod_eq_emod hx hd.le]
  have h := Int.ediv_add_emod (v * n) d
  have hm0 := Int.emod_nonneg (v * n) (ne_of_gt hd)
  have hmd := Int.emod_lt_of_pos (v * n) hd
  by_cases hm : 0 < (v * n) % d
  · rw [if_pos (by simp [hm])]
    have heq : v * n + (d - 1) = ((v * n) % d - 1) + ((v * n) / d + 1) * d := by linarith
    rw [heq, Int.add_mul_ediv_right _ _ (ne_of_gt hd),
      show ((v * n) % d - 1) / d = 0 from
        Int.ediv_eq_zero_of_lt (by linarith) (by linarith)]
    ring
  · rw [if_neg (by simp [hm])]
    have hm0' : (v * n) % d = 0 := le_antisymm (not_lt.mp hm) hm0
    have heq : v * n + (d - 1) = (d - 1) + ((v * n) / d) * d := by linarith
    rw [heq, Int.add_mul_ediv_right _ _ (ne_of_gt hd),
      show (d - 1) / d = 0 from
        Int.ediv_eq_zero_of_lt (by linarith) (by linarith)]
    ring

/-- Percentage.apply with roundUp off is plain floor division. -/
theorem Percentage_apply_false_eq (n d v : Int) (hx : 0 ≤ v * n) (hd : 0 < d) :
    (Percentage.mk n d).apply v false = v * n / d := by
  unfold Percentage.apply
  dsimp only
  rw [Int.tdiv_eq_ediv hx hd.le]
  simp

/-- Percentage.apply is nonnegative on nonnegative inputs. -/
theorem Percentage_apply_nonneg (n d v : Int) (r : Bool) (hv : 0 ≤ v) (hn : 0 ≤ n)
    (hd : 0 < d) : 0 ≤ (Percentage.mk n d).apply v r := by
  have hx : 0 ≤ v * n := mul_nonneg hv hn
  cases r
  · rw [Percentage_apply_false_eq n d v hx hd]
    exact Int.ediv_nonneg hx hd.le
  · rw [Percentage_apply_true_eq n d v hx hd]
    exact Int.ediv_nonneg (by linarith) hd.le

/-- Percentage.apply is monotone in the value, for a fixed rounding flag. -/
theorem Percentage_apply_mono (n d a b : Int) (r : Bool) (ha : 0 ≤ a) (hab : a ≤ b)
    (hn : 0 ≤ n) (hd : 0 < d) :
    (Percentage.mk n d).apply a r ≤ (Percentage.mk n d).apply b r := by
  have hxa : 0 ≤ a * n := mul_nonneg ha hn
  have hxb : 0 ≤ b * n := mul_nonneg (ha.trans hab) hn
  have hmul : a * n ≤ b * n := mul_le_mul_of_nonneg_right hab hn
  cases r
  · rw [Percentage_apply_false_eq n d a hxa hd, Percentage_apply_false_eq n d b hxb hd]
    exact Int.ediv_le_ediv hd hmul
  · rw [Percentage_apply_true_eq n d a hxa hd, Percentage_apply_true_eq n d b hxb hd]
    exact Int.ediv_le_ediv hd (by linarith)

/-- C7: subtractSlippage never returns a negative value: for a nonnegative
value and a tolerance with 0 ≤ numerator ≤ denominator (positive denominator,
as the bot always constructs), the result is nonnegative for either flag. -/
theorem c7_subtractSlippage_nonneg (n d v : Int) (r : Bool) (hv : 0 ≤ v) (hn : 0 ≤ n)
    (hnd : n ≤ d) (hd : 0 < d) :
    0 ≤ (Percentage.mk n d).subtractSlippage v r := by
  have hx : 0 ≤ v * n := mul_nonneg hv hn
  have hvn : v * n ≤ v * d := mul_le_mul_of_nonneg_left hnd hv
  unfold Percentage.subtractSlippage
  have key : (Percentage.mk n d).apply v r ≤ v := by
    cases r
    · rw [Percentage_apply_false_eq n d v hx hd]
      have h := Int.ediv_add_emod (v * n) d
      have hm0 := Int.emod_nonneg (v * n) (ne_of_gt hd)
      nlinarith [h, hm0]
    · rw [Percentage_apply_true_eq n d v hx hd]
      have h := Int.ediv_add_emod (v * n + (d - 1)) d
      have hm0 := Int.emod_nonneg (v * n + (d - 1)) (ne_of_gt hd)
      have hmd := Int.emod_lt_of_pos (v * n + (d - 1)) hd
      nlinarith [h, hm0, hmd]
  linarith

/-- C7 witness: value 3, tolerance 50/10000, roundUp true. -/
theorem c7_subtractSlippage_nonneg_witness :
    0 ≤ (Percentage.mk 50 10000).subtractSlippage 3 true :=
  c7_subtractSlippage_nonneg 50 10000 3 true (by decide) (by decide) (by decide) (by decide)

/-- C8 counterexample: value 5, tolerance 1/10, addSlippage with roundUp then
subtractSlippage without roundUp gives 6, exceeding the original value. -/
theorem c8_counterexample :
    (Percentage.mk 1 10).subtractSlippage ((Percentage.mk 1 10).addSlippage 5 true) false = 6 ∧
      ¬ ((Percentage.mk 1 10).subtractSlippage
          ((Percentage.mk 1 10).addSlippage 5 true) false ≤ 5) := by
  constructor
  · decide
  · decide

/-- C8 amended: the round trip never exceeds the original value provided the
subtract call rounds up whenever the add call did (equal flags, or add without
rounding); with addSlippage rounding up and subtractSlippage rounding down the
result can exceed the original (see the counterexample). -/
theorem c8_amended (n d v : Int) (f1 f2 : Bool) (hv : 0 ≤ v) (hn : 0 ≤ n)
    (hnd : n ≤ d) (hd : 0 < d) (hf : f1 = true → f2 = true) :
    (Percentage.mk n d).subtractSlippage ((Percentage.mk n d).addSlippage v f1) f2 ≤ v := by
  unfold Percentage.subtractSlippage Percentage.addSlippage
  have key : (Percentage.mk n d).apply v f1 ≤
      (Percentage.mk n d).apply (v + (Percentage.mk n d).apply v f1) f2 := by
    cases hf1 : f1
    · have hA0 : 0 ≤ (Percentage.mk n d).apply v false :=
        Percentage_apply_nonneg n d v false hv hn hd
      have h1 : (Percentage.mk n d).apply v false ≤
          (Percentage.mk n d).apply (v + (Percentage.mk n d).apply v false) false :=
        Percentage_apply_mono n d v _ false hv (by linarith) hn hd
      have h2 : (Percentage.mk n d).apply (v + (Percentage.mk n d).apply v false) false ≤
          (Percentage.mk n d).apply (v + (Percentage.mk n d).apply v false) f2 := by
        cases f2
        · exact le_refl _
        · have hx : 0 ≤ (v + (Percentage.mk n d).apply v false) * n :=
            mul_nonneg (by linarith) hn
          rw [Percentage_apply_false_eq n d _ hx hd, Percentage_apply_true_eq n d _ hx hd]
          exact Int.ediv_le_ediv hd (by linarith)
      linarith
    · rw [hf hf1]
      have hA1 : 0 ≤ (Percentage.mk n d).apply v true :=
        Percentage_apply_nonneg n d v true hv hn hd
      exact Percentage_apply_mono n d v _ true hv (by linarith) hn hd
  linarith

/-- C8 amended, witness: value 5, tolerance 1/10, both flags rounding up. -/
theorem c8_amended_witness :
    (Percentage.mk 1 10).subtractSlippage ((Percentage.mk 1 10).addSlippage 5 true) true ≤ 5 :=
  c8_amended 1 10 5 true true (by decide) (by decide) (by decide) (by decide) (fun h => h)

/-! ### Pool cache facts -/

/-- After cacheSet, looking the key up yields exactly the new entry. -/
theorem cacheLookup_cacheSet (cache : PoolCache) (poolId : String) (e : Pool × Nat) :
    cacheLookup (cacheSet cache poolId e) poolId = some e := by
  induction cache with
  | nil => simp [cacheSet, cacheLookup]
  | cons hd tl ih =>
      obtain ⟨k, old⟩ := hd
      by_cases hk : k = poolId
      · simp [cacheSet, hk, cacheLookup]
      · simp [cacheSet, hk, cacheLookup, ih]

/-- C9: pool-cache freshness. Starting from a cache whose entry for poolId is
absent or at least POOL_CACHE_TTL old, a call whose first fetch succeeds
performs exactly one fetch and stores the fresh snapshot, wholesale replacing
the prior entry; a second call for the same poolId while the entry is younger
than the TTL returns the identical snapshot, performs no fetch, and leaves the
cache unchanged. -/
theorem c9_pool_cache_freshness (cache0 : PoolCache) (poolId : String)
    (now1 now2 : Nat) (fresh : Pool) (rest attempts2 : List (Option Pool))
    (hstale : cacheLookup cache0 poolId = none ∨
      ∃ p0 ts0, cacheLookup cache0 poolId = some (p0, ts0) ∧
        POOL_CACHE_TTL ≤ now1 - ts0)
    (hyoung : now2 - now1 < POOL_CACHE_TTL) :
    getPoolWithCache cache0 poolId now1 (some fresh :: rest) =
        (some fresh, cacheSet cache0 poolId (fresh, now1), 1) ∧
      cacheLookup (cacheSet cache0 poolId (fresh, now1)) poolId = some (fresh, now1) ∧
      getPoolWithCache (cacheSet cache0 poolId (fresh, now1)) poolId now2 attempts2 =
        (some fresh, cacheSet cache0 poolId (fresh, now1), 0) := by
  refine ⟨?_, cacheLookup_cacheSet cache0 poolId (fresh, now1), ?_⟩
  · unfold getPoolWithCache
    rcases hstale with hnone | ⟨p0, ts0, hsome, hold⟩
    · rw [hnone]
      simp [fetchLoop]
    · rw [hsome]
      dsimp only
      rw [if_neg (by omega)]
      simp [fetchLoop]
  · unfold getPoolWithCache
    rw [cacheLookup_cacheSet cache0 poolId (fresh, now1)]
    dsimp only
    rw [if_pos hyoung]

/-- C9 witness: a concrete stale entry is replaced by one fetch, and the
immediately following call within the TTL serves it from the cache. -/
theorem c9_pool_cache_freshness_witness :
    getPoolWithCache [("pool", ⟨7⟩, 0)] "pool" 6000 [some ⟨42⟩] =
        (some ⟨42⟩, cacheSet [("pool", ⟨7⟩, 0)] "pool" (⟨42⟩, 6000), 1) ∧
      cacheLookup (cacheSet [("pool", ⟨7⟩, 0)] "pool" (⟨42⟩, 6000)) "pool" =
        some (⟨42⟩, 6000) ∧
      getPoolWithCache (cacheSet [("pool", ⟨7⟩, 0)] "pool" (⟨42⟩, 6000)) "pool" 7000 [] =
        (some ⟨42⟩, cacheSet [("pool", ⟨7⟩, 0)] "pool" (⟨42⟩, 6000), 0) :=
  c9_pool_cache_freshness [("pool", ⟨7⟩, 0)] "pool" 6000 7000 ⟨42⟩ [] []
    (Or.inr ⟨⟨7⟩, 0, rfl, by decide⟩) (by decide)

/-! ### The delta_liquidity submitted by a rebalance (C1) -/

/-- An Option bind is none when the continuation is none on every value. -/
theorem option_bind_none {α β : Type} (o : Option α) (f : α → Option β)
    (h : ∀ a, f a = none) : (o >>= f) = none := by
  cases o <;> simp [h]

/-- The private float conversion of clmm.ts never returns for a nonnegative
tick: its result is at least 2^64, which overflows the bn.js 53-bit
number-constructor limit, so the BN construction throws. -/
theorem clmm_tickIndexToSqrtPriceX64_nonneg_none (t : Int) (ht : 0 ≤ t) :
    ClmmPoolUtil.tickIndexToSqrtPriceX64 t = none := by
  unfold ClmmPoolUtil.tickIndexToSqrtPriceX64
  rw [if_pos ht]
  have hpos : 0 < 10000 ^ t.natAbs := Nat.pos_pow_of_pos _ (by norm_num)
  have hsq : 2 ^ 64 * 10000 ^ t.natAbs ≤
      Nat.sqrt (2 ^ 128 * 10001 ^ t.natAbs * 10000 ^ t.natAbs) := by
    rw [Nat.le_sqrt]
    calc 2 ^ 64 * 10000 ^ t.natAbs * (2 ^ 64 * 10000 ^ t.natAbs)
        = 2 ^ 128 * 10000 ^ t.natAbs * 10000 ^ t.natAbs := by ring
      _ ≤ 2 ^ 128 * 10001 ^ t.natAbs * 10000 ^ t.natAbs := by
          have : (10000 : Nat) ^ t.natAbs ≤ 10001 ^ t.natAbs :=
            Nat.pow_le_pow_left (by norm_num) _
          exact Nat.mul_le_mul_right _ (Nat.mul_le_mul_left _ this)
  have hge : 2 ^ 64 ≤
      Nat.sqrt (2 ^ 128 * 10001 ^ t.natAbs * 10000 ^ t.natAbs) / 10000 ^ t.natAbs := by
    calc (2 : Nat) ^ 64 = 2 ^ 64 * 10000 ^ t.natAbs / 10000 ^ t.natAbs := by
          rw [Nat.mul_div_cancel _ hpos]
      _ ≤ _ := Nat.div_le_div_right hsq
  rw [if_neg (by omega)]

/-- estimateLiquidityFromcoinAmounts throws for any new range whose lower tick
is nonnegative, because the very first conversion it performs overflows. -/
theorem estimate_none_of_lower_nonneg (cur tl tu : Int) (amounts : CoinAmounts)
    (h : 0 ≤ tl) :
    ClmmPoolUtil.estimateLiquidityFromcoinAmounts cur tl tu amounts = none := by
  unfold ClmmPoolUtil.estimateLiquidityFromcoinAmounts
  rw [clmm_tickIndexToSqrtPriceX64_nonneg_none tl h]
  rfl

/-- Whenever the recentered range has a nonnegative lower tick (every realistic
pool), the rebalance delta_liquidity computation throws and submits nothing. -/
theorem rebalanceDeltaLiquidity_none_of_lower_nonneg (position : PositionInfo)
    (pool : PoolState)
    (h : 0 ≤ (calculateNewTickRange pool.currentTick pool.tickSpacing
        (position.tickUpper - position.tickLower)).1) :
    rebalanceDeltaLiquidity position pool = none := by
  unfold rebalanceDeltaLiquidity
  dsimp only
  apply option_bind_none
  intro sl
  apply option_bind_none
  intro su
  apply option_bind_none
  intro ca
  exact estimate_none_of_lower_nonneg _ _ _ ca h

/-- C1 counterexample: a position with liquidity 1 on range [100, 120] and a
pool at tick 15 with spacing 10 and current sqrt price 2^65. The recentered
range is [0, 30]; the submitted delta_liquidity is not the original liquidity:
the liquidity-estimation step throws (bn.js 53-bit constructor limit), so the
add-liquidity step never submits any delta_liquidity at all. -/
theorem c1_counterexample :
    rebalanceDeltaLiquidity ⟨100, 120, 1⟩ ⟨15, 10, 2 ^ 65⟩ ≠
      some (PositionInfo.liquidity ⟨100, 120, 1⟩) := by
  rw [rebalanceDeltaLiquidity_none_of_lower_nonneg ⟨100, 120, 1⟩ ⟨15, 10, 2 ^ 65⟩
    (by decide)]
  simp

/-- C1 amended: the delta_liquidity submitted by addLiquidityToPosition is the
recomputed estimate from the new range's coin amounts, not the position's
original liquidity; moreover, whenever the new range's lower tick is
nonnegative the estimation step throws on BN construction, so no
delta_liquidity is submitted at all. -/
theorem c1_amended (position : PositionInfo) (pool : PoolState)
    (h : 0 ≤ (calculateNewTickRange pool.currentTick pool.tickSpacing
        (position.tickUpper - position.tickLower)).1) :
    rebalanceDeltaLiquidity position pool = none :=
  rebalanceDeltaLiquidity_none_of_lower_nonneg position pool h

/-- C1 amended, witness at the counterexample's position and pool state. -/
theorem c1_amended_witness :
    rebalanceDeltaLiquidity ⟨100, 120, 1⟩ ⟨15, 10, 2 ^ 65⟩ = none :=
  c1_amended ⟨100, 120, 1⟩ ⟨15, 10, 2 ^ 65⟩ (by decide)

/-! ### Strict monotonicity of TickMath.tickIndexToSqrtPriceX64 (C6)

The Q128 ratio accumulated by the magic-constant loop tracks the real number
2^128 * g^absTick, where g is the square root of 10000/10001, that is
1/sqrt(1.0001). Each magic constant is within 8192 of 2^128 * g^(2^i) —
certified by chaining exact integer inequalities from one constant to the
square of the previous, so only 256-bit arithmetic is ever needed — and each
loop step adds at most 8195 to the accumulated absolute error, giving a final
error below 155706 for the 20-entry table. That error is dwarfed by the gap
between the exact values of adjacent ticks, which yields strict monotonicity.
All real-number lemmas are parametrized by any g with 0 ≤ g and
g^2 = 10000/10001, instantiated with Real.sqrt at the end. -/

/-- The loop accumulator is within e of 2^128 * g^m. -/
def RatioApprox (g : ℝ) (acc m : Nat) (e : ℝ) : Prop :=
  (acc : ℝ) ≤ 2 ^ 128 * g ^ m + e ∧ 2 ^ 128 * g ^ m ≤ (acc : ℝ) + e

/-- A suffix of the magic-constant table starting at index i is good when each
entry's bit is the matching power of two and each constant is within 8192 of
2^128 * g^bit. -/
def GoodEntries (g : ℝ) : List (Nat × Nat) → Nat → Prop
  | [], _ => True
  | (bit, c) :: rest, i =>
      (bit = 2 ^ i ∧ (c : ℝ) ≤ 2 ^ 128 * g ^ (2 ^ i) + 8192 ∧
        2 ^ 128 * g ^ (2 ^ i) ≤ (c : ℝ) + 8192) ∧ GoodEntries g rest (i + 1)

theorem ratioApprox_mono_e {g : ℝ} {acc m : Nat} {e e' : ℝ} (h : RatioApprox g acc m e)
    (hee : e ≤ e') : RatioApprox g acc m e' :=
  ⟨h.1.trans (by linarith), h.2.trans (by linarith)⟩

/-- Certification of an even-exponent constant from two integer inequalities:
for b = 2k, g^b = (10000/10001)^k is rational, and the inequalities place c
within 1 of 2^128 * g^b. Used for the base of the chain (k = 1). -/
theorem entryBound_of_even (g : ℝ) (hgsq : g ^ 2 = 10000 / 10001) (c k b : Nat)
    (hb : b = 2 * k) (hc : 1 ≤ c)
    (hlo : (c - 1) * 10001 ^ k ≤ 2 ^ 128 * 10000 ^ k)
    (hhi : 2 ^ 128 * 10000 ^ k ≤ (c + 1) * 10001 ^ k) :
    (c : ℝ) ≤ 2 ^ 128 * g ^ b + 1 ∧ 2 ^ 128 * g ^ b ≤ (c : ℝ) + 1 := by
  have hgp : g ^ b = (10000 : ℝ) ^ k / 10001 ^ k := by
    rw [hb, pow_mul, hgsq, div_pow]
  have hden : (0 : ℝ) < 10001 ^ k := by positivity
  have hcast : ((c - 1 : ℕ) : ℝ) = (c : ℝ) - 1 := by
    have h : ((c - 1 : ℕ) : ℝ) = (c : ℝ) - ((1 : ℕ) : ℝ) := Nat.cast_sub hc
    simpa using h
  have hlo' : ((c : ℝ) - 1) * 10001 ^ k ≤ 2 ^ 128 * 10000 ^ k := by
    have h := (Nat.cast_le (α := ℝ)).mpr hlo
    push_cast at h
    rw [hcast] at h
    linarith
  have hhi' : (2 : ℝ) ^ 128 * 10000 ^ k ≤ ((c : ℝ) + 1) * 10001 ^ k := by
    have h := (Nat.cast_le (α := ℝ)).mpr hhi
    push_cast at h
    linarith
  have key : (2 : ℝ) ^ 128 * (10000 ^ k / 10001 ^ k) = 2 ^ 128 * 10000 ^ k / 10001 ^ k := by
    ring
  constructor
  · rw [hgp, key, ← sub_le_iff_le_add, le_div_iff hden]
    linarith
  · rw [hgp, key, div_le_iff hden]
    linarith

/-- Certification of the bit-0 constant: squaring reduces the bound on
2^128 * g to integer inequalities. -/
theorem entryBound_of_sqrt (g : ℝ) (hg0 : 0 ≤ g) (hgsq : g ^ 2 = 10000 / 10001)
    (c : Nat) (hc : 1 ≤ c)
    (hlo : (c - 1) * (c - 1) * 10001 ≤ 2 ^ 256 * 10000)
    (hhi : 2 ^ 256 * 10000 ≤ (c + 1) * (c + 1) * 10001) :
    (c : ℝ) ≤ 2 ^ 128 * g + 1 ∧ 2 ^ 128 * g ≤ (c : ℝ) + 1 := by
  have hsq : (2 ^ 128 * g) ^ 2 = 2 ^ 256 * 10000 / 10001 := by
    rw [mul_pow, hgsq]
    ring
  have hgn : (0 : ℝ) ≤ 2 ^ 128 * g := mul_nonneg (by norm_num) hg0
  have hcast : ((c - 1 : ℕ) : ℝ) = (c : ℝ) - 1 := by
    have h : ((c - 1 : ℕ) : ℝ) = (c : ℝ) - ((1 : ℕ) : ℝ) := Nat.cast_sub hc
    simpa using h
  constructor
  · have hlo' : ((c : ℝ) - 1) * ((c : ℝ) - 1) * 10001 ≤ 2 ^ 256 * 10000 := by
      have h := (Nat.cast_le (α := ℝ)).mpr hlo
      push_cast at h
      rw [hcast] at h
      linarith
    have h1 : ((c : ℝ) - 1) ^ 2 ≤ (2 ^ 128 * g) ^ 2 := by
      rw [hsq, le_div_iff (by norm_num : (0:ℝ) < 10001), pow_two]
      exact hlo'
    have h2 : (c : ℝ) - 1 ≤ 2 ^ 128 * g :=
      le_of_pow_le_pow_left (by norm_num) hgn h1
    linarith
  · have hhi' : (2 : ℝ) ^ 256 * 10000 ≤ ((c : ℝ) + 1) * ((c : ℝ) + 1) * 10001 := by
      have h := (Nat.cast_le (α := ℝ)).mpr hhi
      push_cast at h
      linarith
    have h1 : (2 ^ 128 * g) ^ 2 ≤ ((c : ℝ) + 1) ^ 2 := by
      rw [hsq, div_le_iff (by norm_num : (0:ℝ) < 10001), pow_two]
      exact hhi'
    exact le_of_pow_le_pow_left (by norm_num) (by positivity) h1

/-- The chain step: from a bound on the previous constant at exponent b, two
subtraction-free 256-bit integer inequalities certify the next constant at
exponent 2b. -/
theorem entryBound_square (g : ℝ) (hg0 : 0 ≤ g) (cp ci ep ei b : Nat)
    (hepc : ep ≤ cp)
    (hprev1 : (cp : ℝ) ≤ 2 ^ 128 * g ^ b + ep)
    (hprev2 : 2 ^ 128 * g ^ b ≤ (cp : ℝ) + ep)
    (hlo : ci * 2 ^ 128 + 2 * cp * ep ≤ cp * cp + ep * ep + ei * 2 ^ 128)
    (hhi : cp * cp + 2 * cp * ep + ep * ep ≤ ci * 2 ^ 128 + ei * 2 ^ 128) :
    (ci : ℝ) ≤ 2 ^ 128 * g ^ (2 * b) + ei ∧ 2 ^ 128 * g ^ (2 * b) ≤ (ci : ℝ) + ei := by
  have hX0 : (0 : ℝ) ≤ 2 ^ 128 * g ^ b := mul_nonneg (by norm_num) (pow_nonneg hg0 b)
  have hXsq : (2 ^ 128 * g ^ b) ^ 2 = 2 ^ 128 * (2 ^ 128 * g ^ (2 * b)) := by
    rw [mul_comm 2 b, pow_mul]
    ring
  have hepc' : (ep : ℝ) ≤ (cp : ℝ) := by exact_mod_cast hepc
  have hlo' : (ci : ℝ) * 2 ^ 128 + 2 * cp * ep ≤ cp * cp + ep * ep + ei * 2 ^ 128 := by
    exact_mod_cast hlo
  have hhi' : (cp : ℝ) * cp + 2 * cp * ep + ep * ep ≤ ci * 2 ^ 128 + ei * 2 ^ 128 := by
    exact_mod_cast hhi
  have hsub0 : (0 : ℝ) ≤ (cp : ℝ) - ep := by linarith
  have hsublo : ((cp : ℝ) - ep) ^ 2 ≤ (2 ^ 128 * g ^ b) ^ 2 :=
    pow_le_pow_left hsub0 (by linarith) 2
  have hsubhi : (2 ^ 128 * g ^ b) ^ 2 ≤ ((cp : ℝ) + ep) ^ 2 :=
    pow_le_pow_left hX0 (by linarith) 2
  have hexp1 : ((cp : ℝ) - ep) ^ 2 = cp * cp - 2 * cp * ep + ep * ep := by ring
  have hexp2 : ((cp : ℝ) + ep) ^ 2 = cp * cp + 2 * cp * ep + ep * ep := by ring
  rw [hXsq] at hsublo hsubhi
  constructor
  · nlinarith [hsublo, hlo', hexp1]
  · nlinarith [hsubhi, hhi', hexp2]

/-- Weakening the per-constant error bound. -/
theorem entryBound_weaken {g : ℝ} {c b : Nat} {e1 e2 : ℝ}
    (h : (c : ℝ) ≤ 2 ^ 128 * g ^ b + e1 ∧ 2 ^ 128 * g ^ b ≤ (c : ℝ) + e1)
    (he : e1 ≤ e2) :
    (c : ℝ) ≤ 2 ^ 128 * g ^ b + e2 ∧ 2 ^ 128 * g ^ b ≤ (c : ℝ) + e2 :=
  ⟨h.1.trans (by linarith), h.2.trans (by linarith)⟩
/-- Chained certification of the loop constants: constant i is within eps_i of
2^128 * g^(2^i), starting from the exact rational bound at i = 1 and squaring
up the table. -/
theorem constApprox1 (g : ℝ) (hg0 : 0 ≤ g) (hgsq : g ^ 2 = 10000 / 10001) :
    ((0xfff97272373d413259a46990580e213a : ℕ) : ℝ) ≤ 2 ^ 128 * g ^ (2 ^ 1) + 1 ∧
      2 ^ 128 * g ^ (2 ^ 1) ≤ ((0xfff97272373d413259a46990580e213a : ℕ) : ℝ) + 1 :=
  entryBound_of_even g hgsq 0xfff97272373d413259a46990580e213a 1 (2 ^ 1) (by norm_num) (by norm_num)
    (by norm_num) (by norm_num)

theorem constApprox2 (g : ℝ) (hg0 : 0 ≤ g) (hgsq : g ^ 2 = 10000 / 10001) :
    ((0xfff2e50f5f656932ef12357cf3c7fdcc : ℕ) : ℝ) ≤ 2 ^ 128 * g ^ (2 ^ 2) + 3 ∧
      2 ^ 128 * g ^ (2 ^ 2) ≤ ((0xfff2e50f5f656932ef12357cf3c7fdcc : ℕ) : ℝ) + 3 := by
  have hp := constApprox1 g hg0 hgsq
  have h := entryBound_square g hg0 0xfff97272373d413259a46990580e213a 0xfff2e50f5f656932ef12357cf3c7fdcc 1 3 (2 ^ 1)
    (by norm_num) (by exact_mod_cast hp.1) (by exact_mod_cast hp.2)
    (by norm_num) (by norm_num)
  rw [show (2 : ℕ) * 2 ^ 1 = 2 ^ 2 from by norm_num] at h
  exact ⟨by exact_mod_cast h.1, by exact_mod_cast h.2⟩

theorem constApprox3 (g : ℝ) (hg0 : 0 ≤ g) (hgsq : g ^ 2 = 10000 / 10001) :
    ((0xffe5caca7e10e4e61c3624eaa0941cd0 : ℕ) : ℝ) ≤ 2 ^ 128 * g ^ (2 ^ 3) + 7 ∧
      2 ^ 128 * g ^ (2 ^ 3) ≤ ((0xffe5caca7e10e4e61c3624eaa0941cd0 : ℕ) : ℝ) + 7 := by
  have hp := constApprox2 g hg0 hgsq
  have h := entryBound_square g hg0 0xfff2e50f5f656932ef12357cf3c7fdcc 0xffe5caca7e10e4e61c3624eaa0941cd0 3 7 (2 ^ 2)
    (by norm_num) (by exact_mod_cast hp.1) (by exact_mod_cast hp.2)
    (by norm_num) (by norm_num)
  rw [show (2 : ℕ) * 2 ^ 2 = 2 ^ 3 from by norm_num] at h
  exact ⟨by exact_mod_cast h.1, by exact_mod_cast h.2⟩

theorem constApprox4 (g : ℝ) (hg0 : 0 ≤ g) (hgsq : g ^ 2 = 10000 / 10001) :
    ((0xffcb9843d60f6159c9db58835c926644 : ℕ) : ℝ) ≤ 2 ^ 128 * g ^ (2 ^ 4) + 15 ∧
      2 ^ 128 * g ^ (2 ^ 4) ≤ ((0xffcb9843d60f6159c9db58835c926644 : ℕ) : ℝ) + 15 := by
  have hp := constApprox3 g hg0 hgsq
  have h := entryBound_square g hg0 0xffe5caca7e10e4e61c3624eaa0941cd0 0xffcb9843d60f6159c9db58835c926644 7 15 (2 ^ 3)
    (by norm_num) (by exact_mod_cast hp.1) (by exact_mod_cast hp.2)
    (by norm_num) (by norm_num)
  rw [show (2 : ℕ) * 2 ^ 3 = 2 ^ 4 from by norm_num] at h
  exact ⟨by exact_mod_cast h.1, by exact_mod_cast h.2⟩

theorem constApprox5 (g : ℝ) (hg0 : 0 ≤ g) (hgsq : g ^ 2 = 10000 / 10001) :
    ((0xff973b41fa98c081472e6896dfb254c0 : ℕ) : ℝ) ≤ 2 ^ 128 * g ^ (2 ^ 5) + 31 ∧
      2 ^ 128 * g ^ (2 ^ 5) ≤ ((0xff973b41fa98c081472e6896dfb254c0 : ℕ) : ℝ) + 31 := by
  have hp := constApprox4 g hg0 hgsq
  have h := entryBound_square g hg0 0xffcb9843d60f6159c9db58835c926644 0xff973b41fa98c081472e6896dfb254c0 15 31 (2 ^ 4)
    (by norm_num) (by exact_mod_cast hp.1) (by exact_mod_cast hp.2)
    (by norm_num) (by norm_num)
  rw [show (2 : ℕ) * 2 ^ 4 = 2 ^ 5 from by norm_num] at h
  exact ⟨by exact_mod_cast h.1, by exact_mod_cast h.2⟩

theorem constApprox6 (g : ℝ) (hg0 : 0 ≤ g) (hgsq : g ^ 2 = 10000 / 10001) :
    ((0xff2ea16466c96a3843ec78b326b52861 : ℕ) : ℝ) ≤ 2 ^ 128 * g ^ (2 ^ 6) + 63 ∧
      2 ^ 128 * g ^ (2 ^ 6) ≤ ((0xff2ea16466c96a3843ec78b326b52861 : ℕ) : ℝ) + 63 := by
  have hp := constApprox5 g hg0 hgsq
  have h := entryBound_square g hg0 0xff973b41fa98c081472e6896dfb254c0 0xff2ea16466c96a3843ec78b326b52861 31 63 (2 ^ 5)
    (by norm_num) (by exact_mod_cast hp.1) (by exact_mod_cast hp.2)
    (by norm_num) (by norm_num)
  rw [show (2 : ℕ) * 2 ^ 5 = 2 ^ 6 from by norm_num] at h
  exact ⟨by exact_mod_cast h.1, by exact_mod_cast h.2⟩

theorem constApprox7 (g : ℝ) (hg0 : 0 ≤ g) (hgsq : g ^ 2 = 10000 / 10001) :
    ((0xfe5dee046a99a2a811c461f1969c3053 : ℕ) : ℝ) ≤ 2 ^ 128 * g ^ (2 ^ 7) + 127 ∧
      2 ^ 128 * g ^ (2 ^ 7) ≤ ((0xfe5dee046a99a2a811c461f1969c3053 : ℕ) : ℝ) + 127 := by
  have hp := constApprox6 g hg0 hgsq
  have h := entryBound_square g hg0 0xff2ea16466c96a3843ec78b326b52861 0xfe5dee046a99a2a811c461f1969c3053 63 127 (2 ^ 6)
    (by norm_num) (by exact_mod_cast hp.1) (by exact_mod_cast hp.2)
    (by norm_num) (by norm_num)
  rw [show (2 : ℕ) * 2 ^ 6 = 2 ^ 7 from by norm_num] at h
  exact ⟨by exact_mod_cast h.1, by exact_mod_cast h.2⟩

theorem constApprox8 (g : ℝ) (hg0 : 0 ≤ g) (hgsq : g ^ 2 = 10000 / 10001) :
    ((0xfcbe86c7900a88aedcffc83b479aa3a4 : ℕ) : ℝ) ≤ 2 ^ 128 * g ^ (2 ^ 8) + 253 ∧
      2 ^ 128 * g ^ (2 ^ 8) ≤ ((0xfcbe86c7900a88aedcffc83b479aa3a4 : ℕ) : ℝ) + 253 := by
  have hp := constApprox7 g hg0 hgsq
  have h := entryBound_square g hg0 0xfe5dee046a99a2a811c461f1969c3053 0xfcbe86c7900a88aedcffc83b479aa3a4 127 253 (2 ^ 7)
    (by norm_num) (by exact_mod_cast hp.1) (by exact_mod_cast hp.2)
    (by norm_num) (by norm_num)
  rw [show (2 : ℕ) * 2 ^ 7 = 2 ^ 8 from by norm_num] at h
  exact ⟨by exact_mod_cast h.1, by exact_mod_cast h.2⟩

theorem constApprox9 (g : ℝ) (hg0 : 0 ≤ g) (hgsq : g ^ 2 = 10000 / 10001) :
    ((0xf987a7253ac413176f2b074cf7815e54 : ℕ) : ℝ) ≤ 2 ^ 128 * g ^ (2 ^ 9) + 500 ∧
      2 ^ 128 * g ^ (2 ^ 9) ≤ ((0xf987a7253ac413176f2b074cf7815e54 : ℕ) : ℝ) + 500 := by
  have hp := constApprox8 g hg0 hgsq
  have h := entryBound_square g hg0 0xfcbe86c7900a88aedcffc83b479aa3a4 0xf987a7253ac413176f2b074cf7815e54 253 500 (2 ^ 8)
    (by norm_num) (by exact_mod_cast hp.1) (by exact_mod_cast hp.2)
    (by norm_num) (by norm_num)
  rw [show (2 : ℕ) * 2 ^ 8 = 2 ^ 9 from by norm_num] at h
  exact ⟨by exact_mod_cast h.1, by exact_mod_cast h.2⟩

theorem constApprox10 (g : ℝ) (hg0 : 0 ≤ g) (hgsq : g ^ 2 = 10000 / 10001) :
    ((0xf3392b0822b70005940c7a398e4b70f3 : ℕ) : ℝ) ≤ 2 ^ 128 * g ^ (2 ^ 10) + 975 ∧
      2 ^ 128 * g ^ (2 ^ 10) ≤ ((0xf3392b0822b70005940c7a398e4b70f3 : ℕ) : ℝ) + 975 := by
  have hp := constApprox9 g hg0 hgsq
  have h := entryBound_square g hg0 0xf987a7253ac413176f2b074cf7815e54 0xf3392b0822b70005940c7a398e4b70f3 500 975 (2 ^ 9)
    (by norm_num) (by exact_mod_cast hp.1) (by exact_mod_cast hp.2)
    (by norm_num) (by norm_num)
  rw [show (2 : ℕ) * 2 ^ 9 = 2 ^ 10 from by norm_num] at h
  exact ⟨by exact_mod_cast h.1, by exact_mod_cast h.2⟩

theorem constApprox11 (g : ℝ) (hg0 : 0 ≤ g) (hgsq : g ^ 2 = 10000 / 10001) :
    ((0xe7159475a2c29b7443b29c7fa6e889d9 : ℕ) : ℝ) ≤ 2 ^ 128 * g ^ (2 ^ 11) + 1853 ∧
      2 ^ 128 * g ^ (2 ^ 11) ≤ ((0xe7159475a2c29b7443b29c7fa6e889d9 : ℕ) : ℝ) + 1853 := by
  have hp := constApprox10 g hg0 hgsq
  have h := entryBound_square g hg0 0xf3392b0822b70005940c7a398e4b70f3 0xe7159475a2c29b7443b29c7fa6e889d9 975 1853 (2 ^ 10)
    (by norm_num) (by exact_mod_cast hp.1) (by exact_mod_cast hp.2)
    (by norm_num) (by norm_num)
  rw [show (2 : ℕ) * 2 ^ 10 = 2 ^ 11 from by norm_num] at h
  exact ⟨by exact_mod_cast h.1, by exact_mod_cast h.2⟩

theorem constApprox12 (g : ℝ) (hg0 : 0 ≤ g) (hgsq : g ^ 2 = 10000 / 10001) :
    ((0xd097f3bdfd2022b8845ad8f792aa5825 : ℕ) : ℝ) ≤ 2 ^ 128 * g ^ (2 ^ 12) + 3347 ∧
      2 ^ 128 * g ^ (2 ^ 12) ≤ ((0xd097f3bdfd2022b8845ad8f792aa5825 : ℕ) : ℝ) + 3347 := by
  have hp := constApprox11 g hg0 hgsq
  have h := entryBound_square g hg0 0xe7159475a2c29b7443b29c7fa6e889d9 0xd097f3bdfd2022b8845ad8f792aa5825 1853 3347 (2 ^ 11)
    (by norm_num) (by exact_mod_cast hp.1) (by exact_mod_cast hp.2)
    (by norm_num) (by norm_num)
  rw [show (2 : ℕ) * 2 ^ 11 = 2 ^ 12 from by norm_num] at h
  exact ⟨by exact_mod_cast h.1, by exact_mod_cast h.2⟩

theorem constApprox13 (g : ℝ) (hg0 : 0 ≤ g) (hgsq : g ^ 2 = 10000 / 10001) :
    ((0xa9f746462d870fdf8a65dc1f90e061e5 : ℕ) : ℝ) ≤ 2 ^ 128 * g ^ (2 ^ 13) + 5456 ∧
      2 ^ 128 * g ^ (2 ^ 13) ≤ ((0xa9f746462d870fdf8a65dc1f90e061e5 : ℕ) : ℝ) + 5456 := by
  have hp := constApprox12 g hg0 hgsq
  have h := entryBound_square g hg0 0xd097f3bdfd2022b8845ad8f792aa5825 0xa9f746462d870fdf8a65dc1f90e061e5 3347 5456 (2 ^ 12)
    (by norm_num) (by exact_mod_cast hp.1) (by exact_mod_cast hp.2)
    (by norm_num) (by norm_num)
  rw [show (2 : ℕ) * 2 ^ 12 = 2 ^ 13 from by norm_num] at h
  exact ⟨by exact_mod_cast h.1, by exact_mod_cast h.2⟩

theorem constApprox14 (g : ℝ) (hg0 : 0 ≤ g) (hgsq : g ^ 2 = 10000 / 10001) :
    ((0x70d869a156d2a1b890bb3df62baf32f7 : ℕ) : ℝ) ≤ 2 ^ 128 * g ^ (2 ^ 14) + 7245 ∧
      2 ^ 128 * g ^ (2 ^ 14) ≤ ((0x70d869a156d2a1b890bb3df62baf32f7 : ℕ) : ℝ) + 7245 := by
  have hp := constApprox13 g hg0 hgsq
  have h := entryBound_square g hg0 0xa9f746462d870fdf8a65dc1f90e061e5 0x70d869a156d2a1b890bb3df62baf32f7 5456 7245 (2 ^ 13)
    (by norm_num) (by exact_mod_cast hp.1) (by exact_mod_cast hp.2)
    (by norm_num) (by norm_num)
  rw [show (2 : ℕ) * 2 ^ 13 = 2 ^ 14 from by norm_num] at h
  exact ⟨by exact_mod_cast h.1, by exact_mod_cast h.2⟩

theorem constApprox15 (g : ℝ) (hg0 : 0 ≤ g) (hgsq : g ^ 2 = 10000 / 10001) :
    ((0x31be135f97d08fd981231505542fcfa6 : ℕ) : ℝ) ≤ 2 ^ 128 * g ^ (2 ^ 15) + 6388 ∧
      2 ^ 128 * g ^ (2 ^ 15) ≤ ((0x31be135f97d08fd981231505542fcfa6 : ℕ) : ℝ) + 6388 := by
  have hp := constApprox14 g hg0 hgsq
  have h := entryBound_square g hg0 0x70d869a156d2a1b890bb3df62baf32f7 0x31be135f97d08fd981231505542fcfa6 7245 6388 (2 ^ 14)
    (by norm_num) (by exact_mod_cast hp.1) (by exact_mod_cast hp.2)
    (by norm_num) (by norm_num)
  rw [show (2 : ℕ) * 2 ^ 14 = 2 ^ 15 from by norm_num] at h
  exact ⟨by exact_mod_cast h.1, by exact_mod_cast h.2⟩

theorem constApprox16 (g : ℝ) (hg0 : 0 ≤ g) (hgsq : g ^ 2 = 10000 / 10001) :
    ((0x9aa508b5b7a84e1c677de54f3e99bc9 : ℕ) : ℝ) ≤ 2 ^ 128 * g ^ (2 ^ 16) + 2483 ∧
      2 ^ 128 * g ^ (2 ^ 16) ≤ ((0x9aa508b5b7a84e1c677de54f3e99bc9 : ℕ) : ℝ) + 2483 := by
  have hp := constApprox15 g hg0 hgsq
  have h := entryBound_square g hg0 0x31be135f97d08fd981231505542fcfa6 0x9aa508b5b7a84e1c677de54f3e99bc9 6388 2483 (2 ^ 15)
    (by norm_num) (by exact_mod_cast hp.1) (by exact_mod_cast hp.2)
    (by norm_num) (by norm_num)
  rw [show (2 : ℕ) * 2 ^ 15 = 2 ^ 16 from by norm_num] at h
  exact ⟨by exact_mod_cast h.1, by exact_mod_cast h.2⟩

theorem constApprox17 (g : ℝ) (hg0 : 0 ≤ g) (hgsq : g ^ 2 = 10000 / 10001) :
    ((0x5d6af8dedb81196699c329225ee604 : ℕ) : ℝ) ≤ 2 ^ 128 * g ^ (2 ^ 17) + 188 ∧
      2 ^ 128 * g ^ (2 ^ 17) ≤ ((0x5d6af8dedb81196699c329225ee604 : ℕ) : ℝ) + 188 := by
  have hp := constApprox16 g hg0 hgsq
  have h := entryBound_square g hg0 0x9aa508b5b7a84e1c677de54f3e99bc9 0x5d6af8dedb81196699c329225ee604 2483 188 (2 ^ 16)
    (by norm_num) (by exact_mod_cast hp.1) (by exact_mod_cast hp.2)
    (by norm_num) (by norm_num)
  rw [show (2 : ℕ) * 2 ^ 16 = 2 ^ 17 from by norm_num] at h
  exact ⟨by exact_mod_cast h.1, by exact_mod_cast h.2⟩

theorem constApprox18 (g : ℝ) (hg0 : 0 ≤ g) (hgsq : g ^ 2 = 10000 / 10001) :
    ((0x2216e584f5fa1ea926041bedfe98 : ℕ) : ℝ) ≤ 2 ^ 128 * g ^ (2 ^ 18) + 1 ∧
      2 ^ 128 * g ^ (2 ^ 18) ≤ ((0x2216e584f5fa1ea926041bedfe98 : ℕ) : ℝ) + 1 := by
  have hp := constApprox17 g hg0 hgsq
  have h := entryBound_square g hg0 0x5d6af8dedb81196699c329225ee604 0x2216e584f5fa1ea926041bedfe98 188 1 (2 ^ 17)
    (by norm_num) (by exact_mod_cast hp.1) (by exact_mod_cast hp.2)
    (by norm_num) (by norm_num)
  rw [show (2 : ℕ) * 2 ^ 17 = 2 ^ 18 from by norm_num] at h
  exact ⟨by exact_mod_cast h.1, by exact_mod_cast h.2⟩

theorem constApprox19 (g : ℝ) (hg0 : 0 ≤ g) (hgsq : g ^ 2 = 10000 / 10001) :
    ((0x48a170391f7dc42444e8fa2 : ℕ) : ℝ) ≤ 2 ^ 128 * g ^ (2 ^ 19) + 1 ∧
      2 ^ 128 * g ^ (2 ^ 19) ≤ ((0x48a170391f7dc42444e8fa2 : ℕ) : ℝ) + 1 := by
  have hp := constApprox18 g hg0 hgsq
  have h := entryBound_square g hg0 0x2216e584f5fa1ea926041bedfe98 0x48a170391f7dc42444e8fa2 1 1 (2 ^ 18)
    (by norm_num) (by exact_mod_cast hp.1) (by exact_mod_cast hp.2)
    (by norm_num) (by norm_num)
  rw [show (2 : ℕ) * 2 ^ 18 = 2 ^ 19 from by norm_num] at h
  exact ⟨by exact_mod_cast h.1, by exact_mod_cast h.2⟩
/-- Bit i of a is set (as the source tests it) exactly when the binary digit
a / 2^i % 2 is 1. -/
theorem and_two_pow_ne_zero_iff (a i : Nat) : a &&& 2 ^ i ≠ 0 ↔ a / 2 ^ i % 2 = 1 := by
  rw [Nat.and_two_pow]
  have htb := Nat.testBit_to_div_mod (x := a) (i := i)
  rcases ht : a.testBit i with _ | _
  · rw [ht] at htb
    have h0 : ¬ (a / 2 ^ i % 2 = 1) := of_decide_eq_false htb.symm
    simp [h0]
  · rw [ht] at htb
    have h1 : a / 2 ^ i % 2 = 1 := of_decide_eq_true htb.symm
    have hp : (2 : Nat) ^ i ≠ 0 := (Nat.pos_pow_of_pos i (by norm_num)).ne'
    simp [h1, hp]

/-- Splitting a residue at the next bit. -/
theorem mod_two_pow_succ_eq (a i : Nat) :
    a % 2 ^ (i + 1) = a % 2 ^ i + 2 ^ i * (a / 2 ^ i % 2) := by
  rw [pow_succ, Nat.mod_mul]

/-- One multiply-and-shift loop step degrades the approximation by at most
8195 (the per-constant error 8192 plus truncation slack). -/
theorem ratioApprox_step (g : ℝ) (hg0 : 0 ≤ g) (hg1 : g ≤ 1) (acc c m b : Nat)
    (e : ℝ) (he1 : 1 ≤ e) (he2 : e ≤ 2 ^ 21) (hacc : RatioApprox g acc m e)
    (hc1 : (c : ℝ) ≤ 2 ^ 128 * g ^ b + 8192) (hc2 : 2 ^ 128 * g ^ b ≤ (c : ℝ) + 8192) :
    RatioApprox g (acc * c / 2 ^ 128) (m + b) (e + 8195) := by
  obtain ⟨hacc1, hacc2⟩ := hacc
  have hA0 : (0 : ℝ) ≤ 2 ^ 128 * g ^ m := mul_nonneg (by norm_num) (pow_nonneg hg0 m)
  have hA1 : (2 : ℝ) ^ 128 * g ^ m ≤ 2 ^ 128 := by
    have := pow_le_one₀ hg0 hg1 (n := m)
    nlinarith
  have hC0 : (0 : ℝ) ≤ 2 ^ 128 * g ^ b := mul_nonneg (by norm_num) (pow_nonneg hg0 b)
  have hC1 : (2 : ℝ) ^ 128 * g ^ b ≤ 2 ^ 128 := by
    have := pow_le_one₀ hg0 hg1 (n := b)
    nlinarith
  have hAC : (2 ^ 128 * g ^ m) * (2 ^ 128 * g ^ b) = 2 ^ 256 * g ^ (m + b) := by
    rw [pow_add]
    ring
  have hq1 : (2 : ℝ) ^ 128 * ((acc * c / 2 ^ 128 : Nat) : ℝ) ≤ (acc : ℝ) * c := by
    have h := Nat.div_mul_le_self (acc * c) (2 ^ 128)
    have h' := (Nat.cast_le (α := ℝ)).mpr h
    push_cast at h'
    linarith
  have hq2 : (acc : ℝ) * c ≤ 2 ^ 128 * ((acc * c / 2 ^ 128 : Nat) : ℝ) + 2 ^ 128 := by
    have h := Nat.div_add_mod (acc * c) (2 ^ 128)
    have hm := Nat.mod_lt (acc * c) (show 0 < 2 ^ 128 by positivity)
    have h' := (Nat.cast_le (α := ℝ)).mpr h.le
    have hm' := (Nat.cast_lt (α := ℝ)).mpr hm
    have h'' := (Nat.cast_le (α := ℝ)).mpr h.ge
    push_cast at h' hm' h''
    linarith
  have hup : (acc : ℝ) * c ≤ (2 ^ 128 * g ^ m + e) * (2 ^ 128 * g ^ b + 8192) := by
    have hcn : (0 : ℝ) ≤ (c : ℝ) := Nat.cast_nonneg c
    exact mul_le_mul hacc1 hc1 hcn (by linarith)
  have hlow : (2 ^ 128 * g ^ m) * (2 ^ 128 * g ^ b) ≤ ((acc : ℝ) + e) * ((c : ℝ) + 8192) := by
    exact mul_le_mul hacc2 hc2 hC0 (by positivity)
  have heC : e * (2 ^ 128 * g ^ b) ≤ e * 2 ^ 128 :=
    mul_le_mul_of_nonneg_left hC1 (by linarith)
  have hec : e * (c : ℝ) ≤ e * (2 ^ 128 + 8192) :=
    mul_le_mul_of_nonneg_left (by linarith) (by linarith)
  constructor
  · nlinarith [hq1, hup, hAC, heC, hA1]
  · nlinarith [hq2, hlow, hAC, hec, hA1, hacc1]

/-- The loop preserves the approximation along a good table suffix: after
consuming the entries for bits i and above, the tracked exponent is the residue
of absTick modulo the processed bit range and the error grows by 8195 per
entry. -/
theorem ratioLoop_approx (g : ℝ) (hg0 : 0 ≤ g) (hg1 : g ≤ 1) :
    ∀ (l : List (Nat × Nat)) (i : Nat) (a acc : Nat) (e : ℝ),
      GoodEntries g l i → 1 ≤ e → e + 8195 * l.length ≤ 2 ^ 21 →
      RatioApprox g acc (a % 2 ^ i) e →
      RatioApprox g (TickMath.ratioLoop a l acc) (a % 2 ^ (i + l.length))
        (e + 8195 * l.length) := by
  intro l
  induction l with
  | nil =>
      intro i a acc e _ _ _ hacc
      simpa using hacc
  | cons hd tl ih =>
      obtain ⟨bit, c⟩ := hd
      intro i a acc e hgood he1 helen hacc
      obtain ⟨⟨hbit, hc1, hc2⟩, hrest⟩ := hgood
      subst hbit
      have hlen : (((2 : Nat) ^ i, c) :: tl).length = tl.length + 1 := rfl
      rw [hlen] at helen ⊢
      have helen' : (e + 8195) + 8195 * (tl.length : ℝ) ≤ 2 ^ 21 := by
        push_cast at helen ⊢
        linarith
      have hidx : i + (tl.length + 1) = (i + 1) + tl.length := by omega
      rw [hidx]
      have herr : e + 8195 * ((tl.length + 1 : ℕ) : ℝ) =
          (e + 8195) + 8195 * (tl.length : ℝ) := by
        push_cast
        ring
      rw [herr]
      simp only [TickMath.ratioLoop]
      by_cases hb : a &&& 2 ^ i ≠ 0
      · rw [if_pos hb]
        have hb2 : a / 2 ^ i % 2 = 1 := (and_two_pow_ne_zero_iff a i).mp hb
        have hstep := ratioApprox_step g hg0 hg1 acc c (a % 2 ^ i) (2 ^ i) e he1
          (by push_cast at helen; linarith) hacc hc1 hc2
        have hm : a % 2 ^ i + 2 ^ i = a % 2 ^ (i + 1) := by
          rw [mod_two_pow_succ_eq, hb2, mul_one]
        rw [hm] at hstep
        exact ih (i + 1) a (acc * c / 2 ^ 128) (e + 8195) hrest (by linarith) helen' hstep
      · rw [if_neg hb]
        have hb2 : a / 2 ^ i % 2 = 0 := by
          have h := (and_two_pow_ne_zero_iff a i).not.mp hb
          omega
        have hm : a % 2 ^ (i + 1) = a % 2 ^ i := by
          rw [mod_two_pow_succ_eq, hb2, mul_zero, add_zero]
        have hacc' : RatioApprox g acc (a % 2 ^ (i + 1)) (e + 8195) := by
          rw [hm]
          exact ratioApprox_mono_e hacc (by linarith)
        exact ih (i + 1) a acc (e + 8195) hrest (by linarith) helen' hacc'

/-- The 19 loop entries of the magic-constant table are all within 8192 of the
exact value 2^128 * g^bit. -/
theorem goodEntries_magic (g : ℝ) (hg0 : 0 ≤ g) (hgsq : g ^ 2 = 10000 / 10001) :
    GoodEntries g (TickMath.MAGIC_CONSTANTS.drop 1) 1 :=
  ⟨⟨by norm_num, entryBound_weaken (constApprox1 g hg0 hgsq) (by norm_num)⟩,
   ⟨⟨by norm_num, entryBound_weaken (constApprox2 g hg0 hgsq) (by norm_num)⟩,
    ⟨⟨by norm_num, entryBound_weaken (constApprox3 g hg0 hgsq) (by norm_num)⟩,
     ⟨⟨by norm_num, entryBound_weaken (constApprox4 g hg0 hgsq) (by norm_num)⟩,
      ⟨⟨by norm_num, entryBound_weaken (constApprox5 g hg0 hgsq) (by norm_num)⟩,
       ⟨⟨by norm_num, entryBound_weaken (constApprox6 g hg0 hgsq) (by norm_num)⟩,
        ⟨⟨by norm_num, entryBound_weaken (constApprox7 g hg0 hgsq) (by norm_num)⟩,
         ⟨⟨by norm_num, entryBound_weaken (constApprox8 g hg0 hgsq) (by norm_num)⟩,
          ⟨⟨by norm_num, entryBound_weaken (constApprox9 g hg0 hgsq) (by norm_num)⟩,
           ⟨⟨by norm_num, entryBound_weaken (constApprox10 g hg0 hgsq) (by norm_num)⟩,
            ⟨⟨by norm_num, entryBound_weaken (constApprox11 g hg0 hgsq) (by norm_num)⟩,
             ⟨⟨by norm_num, entryBound_weaken (constApprox12 g hg0 hgsq) (by norm_num)⟩,
              ⟨⟨by norm_num, entryBound_weaken (constApprox13 g hg0 hgsq) (by norm_num)⟩,
               ⟨⟨by norm_num, entryBound_weaken (constApprox14 g hg0 hgsq) (by norm_num)⟩,
                ⟨⟨by norm_num, entryBound_weaken (constApprox15 g hg0 hgsq) (by norm_num)⟩,
                 ⟨⟨by norm_num, entryBound_weaken (constApprox16 g hg0 hgsq) (by norm_num)⟩,
                  ⟨⟨by norm_num, entryBound_weaken (constApprox17 g hg0 hgsq) (by norm_num)⟩,
                   ⟨⟨by norm_num, entryBound_weaken (constApprox18 g hg0 hgsq) (by norm_num)⟩,
                    ⟨⟨by norm_num, entryBound_weaken (constApprox19 g hg0 hgsq) (by norm_num)⟩,
                     trivial⟩⟩⟩⟩⟩⟩⟩⟩⟩⟩⟩⟩⟩⟩⟩⟩⟩⟩⟩

/-- The accumulated Q128 ratio is within 155706 of 2^128 * g^(absTick mod 2^20). -/
theorem ratioOfAbsTick_approx (g : ℝ) (hg0 : 0 ≤ g) (hg1 : g ≤ 1)
    (hgsq : g ^ 2 = 10000 / 10001) (a : Nat) :
    RatioApprox g (TickMath.ratioOfAbsTick a) (a % 2 ^ 20) 155706 := by
  have hand := Nat.and_one_is_mod a
  have hinit : RatioApprox g
      (if a &&& 0x1 ≠ 0 then 0xfffcb933bd6fad37aa2d162d1a594001 else TickMath.Q128_ONE)
      (a % 2 ^ 1) 1 := by
    rw [pow_one]
    by_cases hb : a &&& 0x1 ≠ 0
    · rw [if_pos hb]
      have hm : a % 2 = 1 := by omega
      rw [hm]
      have hentry := entryBound_of_sqrt g hg0 hgsq 0xfffcb933bd6fad37aa2d162d1a594001
        (by norm_num) (by norm_num) (by norm_num)
      refine ⟨?_, ?_⟩
      · rw [pow_one]
        exact hentry.1
      · rw [pow_one]
        exact hentry.2
    · rw [if_neg hb]
      have hm : a % 2 = 0 := by omega
      rw [hm]
      constructor
      · rw [pow_zero]
        show ((TickMath.Q128_ONE : ℕ) : ℝ) ≤ 2 ^ 128 * 1 + 1
        rw [TickMath.Q128_ONE]
        push_cast
        norm_num
      · rw [pow_zero]
        show 2 ^ 128 * 1 ≤ ((TickMath.Q128_ONE : ℕ) : ℝ) + 1
        rw [TickMath.Q128_ONE]
        push_cast
        norm_num
  have hgood := goodEntries_magic g hg0 hgsq
  have hlen : (TickMath.MAGIC_CONSTANTS.drop 1).length = 19 := rfl
  have h := ratioLoop_approx g hg0 hg1 (TickMath.MAGIC_CONSTANTS.drop 1) 1 a _ 1
    hgood le_rfl (by rw [hlen]; norm_num) hinit
  rw [hlen] at h
  unfold TickMath.ratioOfAbsTick
  norm_num at h ⊢
  exact h
/-- A concrete square root of 10000/10001 with the properties the bounds use. -/
theorem sqrt_ratio_exists : ∃ g : ℝ, 0 ≤ g ∧ g ≤ 1 ∧ g ^ 2 = 10000 / 10001 :=
  ⟨Real.sqrt (10000 / 10001), Real.sqrt_nonneg _,
    Real.sqrt_le_one.mpr (by norm_num), Real.sq_sqrt (by norm_num)⟩

/-- Over the legal absTick range the exact Q128 value stays above 2^95. -/
theorem Xn_lower (g : ℝ) (hg0 : 0 ≤ g) (hg1 : g ≤ 1) (hgsq : g ^ 2 = 10000 / 10001)
    (n : Nat) (hn : n ≤ 443636) : (2 : ℝ) ^ 95 ≤ 2 ^ 128 * g ^ n := by
  have hR : (2 : ℕ) ^ 95 + 155706 ≤ TickMath.ratioOfAbsTick 443636 := by decide
  have happ := (ratioOfAbsTick_approx g hg0 hg1 hgsq 443636).1
  rw [Nat.mod_eq_of_lt (by norm_num)] at happ
  have hcast : (2 : ℝ) ^ 95 + 155706 ≤ ((TickMath.ratioOfAbsTick 443636 : ℕ) : ℝ) := by
    exact_mod_cast hR
  have h1 : (2 : ℝ) ^ 95 ≤ 2 ^ 128 * g ^ 443636 := by linarith
  have hmono : g ^ 443636 ≤ g ^ n := pow_le_pow_of_le_one hg0 hg1 hn
  calc (2 : ℝ) ^ 95 ≤ 2 ^ 128 * g ^ 443636 := h1
    _ ≤ 2 ^ 128 * g ^ n := mul_le_mul_of_nonneg_left hmono (by norm_num)

/-- The central gap bound: a larger absTick in the legal range yields a Q128
ratio smaller by more than 2^64. -/
theorem ratioOfAbsTick_gap {n n' : Nat} (h : n < n') (h' : n' ≤ 443636) :
    TickMath.ratioOfAbsTick n' + 2 ^ 64 + 4 ≤ TickMath.ratioOfAbsTick n := by
  obtain ⟨g, hg0, hg1, hgsq⟩ := sqrt_ratio_exists
  have hb1 := ratioOfAbsTick_approx g hg0 hg1 hgsq n
  have hb2 := ratioOfAbsTick_approx g hg0 hg1 hgsq n'
  rw [Nat.mod_eq_of_lt (by omega)] at hb1
  rw [Nat.mod_eq_of_lt (by omega)] at hb2
  obtain ⟨hb1u, hb1l⟩ := hb1
  obtain ⟨hb2u, hb2l⟩ := hb2
  have hmono : g ^ n' ≤ g ^ (n + 1) := pow_le_pow_of_le_one hg0 hg1 (by omega)
  have hX' : (2 : ℝ) ^ 128 * g ^ n' ≤ g * (2 ^ 128 * g ^ n) := by
    calc (2 : ℝ) ^ 128 * g ^ n' ≤ 2 ^ 128 * g ^ (n + 1) :=
          mul_le_mul_of_nonneg_left hmono (by norm_num)
      _ = g * (2 ^ 128 * g ^ n) := by rw [pow_succ]; ring
  have hXN := Xn_lower g hg0 hg1 hgsq n (by omega)
  have hgub : 2 ^ 128 * g ≤ (0xfffcb933bd6fad37aa2d162d1a594001 : ℝ) + 1 :=
    (entryBound_of_sqrt g hg0 hgsq 0xfffcb933bd6fad37aa2d162d1a594001
      (by norm_num) (by norm_num) (by norm_num)).2
  have hfrac : ((2 : ℝ) ^ 128 - 0xfffcb933bd6fad37aa2d162d1a594001 - 1) / 2 ^ 128 ≤
      1 - g := by
    rw [div_le_iff (show (0 : ℝ) < 2 ^ 128 by norm_num)]
    nlinarith [hgub]
  have hfrac0 : (0 : ℝ) ≤
      ((2 : ℝ) ^ 128 - 0xfffcb933bd6fad37aa2d162d1a594001 - 1) / 2 ^ 128 := by
    norm_num
  have hXpos : (0 : ℝ) ≤ 2 ^ 128 * g ^ n := mul_nonneg (by norm_num) (pow_nonneg hg0 n)
  have hprod : (2 : ℝ) ^ 95 *
        (((2 : ℝ) ^ 128 - 0xfffcb933bd6fad37aa2d162d1a594001 - 1) / 2 ^ 128) ≤
      (2 ^ 128 * g ^ n) * (1 - g) :=
    mul_le_mul hXN hfrac hfrac0 hXpos
  have hnum : (2 : ℝ) ^ 64 + 311416 ≤ (2 : ℝ) ^ 95 *
      (((2 : ℝ) ^ 128 - 0xfffcb933bd6fad37aa2d162d1a594001 - 1) / 2 ^ 128) := by
    norm_num
  have hexp : (2 ^ 128 * g ^ n) * (1 - g) = 2 ^ 128 * g ^ n - g * (2 ^ 128 * g ^ n) := by
    ring
  have final : (TickMath.ratioOfAbsTick n' : ℝ) + 2 ^ 64 + 4 ≤
      TickMath.ratioOfAbsTick n := by
    linarith [hb2u, hb1l, hX', hprod, hnum, hexp]
  exact_mod_cast final

/-- The Q128 ratio never exceeds 2^128. -/
theorem ratio_le_Q128 (n : Nat) (hn : n ≤ 443636) :
    TickMath.ratioOfAbsTick n ≤ 2 ^ 128 := by
  rcases Nat.eq_zero_or_pos n with h0 | hpos
  · subst h0
    decide
  · obtain ⟨g, hg0, hg1, hgsq⟩ := sqrt_ratio_exists
    have hb := (ratioOfAbsTick_approx g hg0 hg1 hgsq n).1
    rw [Nat.mod_eq_of_lt (by omega)] at hb
    have hgn : g ^ n ≤ g := by
      calc g ^ n ≤ g ^ 1 := pow_le_pow_of_le_one hg0 hg1 hpos
        _ = g := pow_one g
    have hgub : 2 ^ 128 * g ≤ (0xfffcb933bd6fad37aa2d162d1a594001 : ℝ) + 1 :=
      (entryBound_of_sqrt g hg0 hgsq 0xfffcb933bd6fad37aa2d162d1a594001
        (by norm_num) (by norm_num) (by norm_num)).2
    have hmul : (2 : ℝ) ^ 128 * g ^ n ≤ 2 ^ 128 * g :=
      mul_le_mul_of_nonneg_left hgn (by norm_num)
    have hnum : (0xfffcb933bd6fad37aa2d162d1a594001 : ℝ) + 1 + 155706 ≤ 2 ^ 128 := by
      norm_num
    have final : (TickMath.ratioOfAbsTick n : ℝ) ≤ 2 ^ 128 := by linarith
    exact_mod_cast final

/-- The Q128 ratio is positive on the legal range. -/
theorem ratio_pos (n : Nat) (hn : n ≤ 443636) : 0 < TickMath.ratioOfAbsTick n := by
  obtain ⟨g, hg0, hg1, hgsq⟩ := sqrt_ratio_exists
  have hb := (ratioOfAbsTick_approx g hg0 hg1 hgsq n).2
  rw [Nat.mod_eq_of_lt (by omega)] at hb
  have hXN := Xn_lower g hg0 hg1 hgsq n hn
  have hnum : (155706 : ℝ) + 1 ≤ 2 ^ 95 := by norm_num
  have final : (0 : ℝ) < (TickMath.ratioOfAbsTick n : ℝ) := by linarith
  exact_mod_cast final

/-- A gap of at least 2^64 survives the final 64-bit shift strictly. -/
theorem shift64_lt {x y : Nat} (h : x + 2 ^ 64 ≤ y) : x / 2 ^ 64 < y / 2 ^ 64 := by
  have h1 : (x + 2 ^ 64) / 2 ^ 64 ≤ y / 2 ^ 64 := Nat.div_le_div_right h
  rw [Nat.add_div_right x (by norm_num)] at h1
  omega
/-- Negative-branch strictness: the shifted ratio strictly decreases in absTick. -/
theorem sqrtPrice_neg_branch_strict {n n' : Nat} (h : n < n') (h' : n' ≤ 443636) :
    TickMath.ratioOfAbsTick n' / 2 ^ 64 < TickMath.ratioOfAbsTick n / 2 ^ 64 := by
  have hgap := ratioOfAbsTick_gap h h'
  exact shift64_lt (by omega)

/-- Positive-branch strictness: the shifted inverted ratio strictly increases
in absTick. -/
theorem sqrtPrice_pos_branch_strict {n n' : Nat} (h : n < n') (h' : n' ≤ 443636) :
    TickMath.MAX_UINT256 / TickMath.ratioOfAbsTick n / 2 ^ 64 <
      TickMath.MAX_UINT256 / TickMath.ratioOfAbsTick n' / 2 ^ 64 := by
  have hgap : TickMath.ratioOfAbsTick n' + 2 ^ 64 + 4 ≤ TickMath.ratioOfAbsTick n :=
    ratioOfAbsTick_gap h h'
  have hRle : TickMath.ratioOfAbsTick n ≤ 2 ^ 128 := ratio_le_Q128 n (by omega)
  have hR'le : TickMath.ratioOfAbsTick n' ≤ 2 ^ 128 := ratio_le_Q128 n' h'
  have hR'pos : 0 < TickMath.ratioOfAbsTick n' := ratio_pos n' h'
  have hRpos : 0 < TickMath.ratioOfAbsTick n := by omega
  have hqR : TickMath.MAX_UINT256 / TickMath.ratioOfAbsTick n * TickMath.ratioOfAbsTick n ≤
      TickMath.MAX_UINT256 := Nat.div_mul_le_self _ _
  have hqlow : 2 ^ 128 - 1 ≤ TickMath.MAX_UINT256 / TickMath.ratioOfAbsTick n := by
    have h1 : TickMath.MAX_UINT256 / 2 ^ 128 ≤
        TickMath.MAX_UINT256 / TickMath.ratioOfAbsTick n :=
      Nat.div_le_div_left hRle hRpos
    have h2 : TickMath.MAX_UINT256 / 2 ^ 128 = 2 ^ 128 - 1 := by
      rw [TickMath.MAX_UINT256]
      norm_num
    omega
  have hkey : (TickMath.MAX_UINT256 / TickMath.ratioOfAbsTick n + (2 ^ 64 + 1)) *
      TickMath.ratioOfAbsTick n' ≤ TickMath.MAX_UINT256 := by
    have h1 : TickMath.MAX_UINT256 / TickMath.ratioOfAbsTick n * TickMath.ratioOfAbsTick n' +
        (2 ^ 64 + 4) * (TickMath.MAX_UINT256 / TickMath.ratioOfAbsTick n) ≤
        TickMath.MAX_UINT256 / TickMath.ratioOfAbsTick n * TickMath.ratioOfAbsTick n := by
      calc TickMath.MAX_UINT256 / TickMath.ratioOfAbsTick n * TickMath.ratioOfAbsTick n' +
            (2 ^ 64 + 4) * (TickMath.MAX_UINT256 / TickMath.ratioOfAbsTick n)
          = TickMath.MAX_UINT256 / TickMath.ratioOfAbsTick n *
              (TickMath.ratioOfAbsTick n' + (2 ^ 64 + 4)) := by ring
        _ ≤ TickMath.MAX_UINT256 / TickMath.ratioOfAbsTick n *
              TickMath.ratioOfAbsTick n :=
            Nat.mul_le_mul_left _ (by omega)
    have h3 : (2 ^ 64 + 1) * TickMath.ratioOfAbsTick n' ≤
        (2 ^ 64 + 4) * (TickMath.MAX_UINT256 / TickMath.ratioOfAbsTick n) := by
      calc (2 ^ 64 + 1) * TickMath.ratioOfAbsTick n' ≤ (2 ^ 64 + 1) * 2 ^ 128 :=
            Nat.mul_le_mul_left _ hR'le
        _ ≤ (2 ^ 64 + 4) * (2 ^ 128 - 1) := by norm_num
        _ ≤ (2 ^ 64 + 4) * (TickMath.MAX_UINT256 / TickMath.ratioOfAbsTick n) :=
            Nat.mul_le_mul_left _ hqlow
    calc (TickMath.MAX_UINT256 / TickMath.ratioOfAbsTick n + (2 ^ 64 + 1)) *
          TickMath.ratioOfAbsTick n'
        = TickMath.MAX_UINT256 / TickMath.ratioOfAbsTick n * TickMath.ratioOfAbsTick n' +
            (2 ^ 64 + 1) * TickMath.ratioOfAbsTick n' := by ring
      _ ≤ TickMath.MAX_UINT256 / TickMath.ratioOfAbsTick n * TickMath.ratioOfAbsTick n' +
            (2 ^ 64 + 4) * (TickMath.MAX_UINT256 / TickMath.ratioOfAbsTick n) := by omega
      _ ≤ TickMath.MAX_UINT256 / TickMath.ratioOfAbsTick n * TickMath.ratioOfAbsTick n :=
          h1
      _ ≤ TickMath.MAX_UINT256 := hqR
  have hdivkey : TickMath.MAX_UINT256 / TickMath.ratioOfAbsTick n + (2 ^ 64 + 1) ≤
      TickMath.MAX_UINT256 / TickMath.ratioOfAbsTick n' :=
    (Nat.le_div_iff_mul_le hR'pos).mpr hkey
  exact shift64_lt (by omega)

/-- The ratio at absTick 0 is exactly one in Q128. -/
theorem ratioOfAbsTick_zero : TickMath.ratioOfAbsTick 0 = 2 ^ 128 := by decide

/-- The Q64.64 value at tick 1 strictly exceeds the value at tick 0. -/
theorem sqrtPrice_tick_one_gt :
    2 ^ 64 < TickMath.MAX_UINT256 / TickMath.ratioOfAbsTick 1 / 2 ^ 64 := by decide

/-- C6: tickIndexToSqrtPriceX64 is strictly monotonically increasing on the
legal tick domain [MIN_TICK, MAX_TICK]: both conversions return, and the value
at the smaller tick is strictly below the value at the larger tick. -/
theorem c6_tickIndexToSqrtPriceX64_strictMono (t1 t2 : Int) (hlo : -443636 ≤ t1)
    (hlt : t1 < t2) (hhi : t2 ≤ 443636) :
    ∃ v1 v2, TickMath.tickIndexToSqrtPriceX64 t1 = some v1 ∧
      TickMath.tickIndexToSqrtPriceX64 t2 = some v2 ∧ v1 < v2 := by
  have hdef : ∀ t : Int, -443636 ≤ t → t ≤ 443636 →
      TickMath.tickIndexToSqrtPriceX64 t =
        some ((if 0 < t then TickMath.MAX_UINT256 / TickMath.ratioOfAbsTick t.natAbs
          else TickMath.ratioOfAbsTick t.natAbs) / 2 ^ 64) := by
    intro t h1 h2
    unfold TickMath.tickIndexToSqrtPriceX64
    rw [if_neg]
    unfold TickMath.MIN_TICK TickMath.MAX_TICK
    push_neg
    omega
  refine ⟨_, _, hdef t1 hlo (by omega), hdef t2 (by omega) hhi, ?_⟩
  by_cases h2p : 0 < t2
  · rw [if_pos h2p]
    by_cases h1p : 0 < t1
    · rw [if_pos h1p]
      exact sqrtPrice_pos_branch_strict (by omega) (by omega)
    · rw [if_neg h1p]
      have hs : TickMath.ratioOfAbsTick t1.natAbs / 2 ^ 64 ≤ 2 ^ 64 := by
        rcases Nat.eq_zero_or_pos t1.natAbs with hz | hp
        · rw [hz, ratioOfAbsTick_zero]
          norm_num
        · have hlt0 := sqrtPrice_neg_branch_strict hp (show t1.natAbs ≤ 443636 by omega)
          rw [ratioOfAbsTick_zero] at hlt0
          have h2 : (2 : ℕ) ^ 128 / 2 ^ 64 = 2 ^ 64 := by norm_num
          omega
      have hp2 : 2 ^ 64 <
          TickMath.MAX_UINT256 / TickMath.ratioOfAbsTick t2.natAbs / 2 ^ 64 := by
        rcases eq_or_lt_of_le (show 1 ≤ t2.natAbs by omega) with he | hgt
        · rw [← he]
          exact sqrtPrice_tick_one_gt
        · exact lt_trans sqrtPrice_tick_one_gt
            (sqrtPrice_pos_branch_strict hgt (by omega))
      omega
  · rw [if_neg h2p, if_neg (show ¬ 0 < t1 by omega)]
    exact sqrtPrice_neg_branch_strict (by omega) (by omega)

/-- C6 witness at ticks 0 and 2. -/
theorem c6_tickIndexToSqrtPriceX64_strictMono_witness :
    ∃ v1 v2, TickMath.tickIndexToSqrtPriceX64 0 = some v1 ∧
      TickMath.tickIndexToSqrtPriceX64 2 = some v2 ∧ v1 < v2 :=
  c6_tickIndexToSqrtPriceX64_strictMono 0 2 (by norm_num) (by norm_num) (by norm_num)
